import Mathlib

/-!
# Verification of the custom-elements lifecycle core (src/src/custom-elements.js)

This file is a shallow embedding of the custom-element runtime of the
repository: the name validator, the definition table and registry facade,
the per-element state store, the reaction queue engine (element-queue
stack, backup element queue, reaction invocation loop) and the upgrade
algorithm.  JavaScript objects become Lean structures, the mutable module
state becomes an explicit `RuntimeState` threaded through every function,
and exceptions become an `Option CEError` component of each result.
Element identities and constructor identities are natural numbers; the
host-provided surfaces (element attribute lists, `isConnected`,
constructor descriptors, the object-construction hook) are a read-only
environment `Env`.  User-supplied lifecycle callbacks are modelled as an
oracle producing a list of commands that act through the module's public
entry points, mirroring the fact that script code can only reach the
module state through its exported API.
-/

namespace CustomElements

/-- Error values.  JavaScript exceptions are represented by the name that
the source uses to construct or dispatch on them; `userError` stands for
an arbitrary exception thrown by user script. -/
inductive CEError
  | typeError
  | syntaxError
  | notSupportedError
  | invalidStateError
  | referenceError
  | userError (n : Nat)
deriving DecidableEq, Repr

/-- Custom element states (`CE_STATE_FAILED` / `CE_STATE_CUSTOM` /
`CE_STATE_UNDEFINED` in the source).  The "uncustomized" state of the
spec is the absence of a value (`Option CEState` below). -/
inductive CEState
  | failed
  | custom
  | undefinedState
deriving DecidableEq, Repr

/-- The four lifecycle callback kinds (`CE_CALLBACK_*` in the source). -/
inductive CallbackKind
  | connected
  | disconnected
  | adopted
  | attributeChanged
deriving DecidableEq, Repr

/-- A queued reaction (`{type: upgradeReactionType, definition}` or
`{type: callbackReactionType, callback, args}` in the source).  For a
callback reaction we record the index of the definition whose callback
function was captured at enqueue time, the callback kind and the argument
list (JavaScript `null`/`undefined` arguments are `none`). -/
inductive Reaction
  | upgrade (defnIdx : Nat)
  | callback (defnIdx : Nat) (kind : CallbackKind) (args : List (Option String))
deriving DecidableEq, Repr

/-- An entry of a definition's construction stack: an element identity, or
the `alreadyConstructedMarker` sentinel. -/
inductive StackEntry
  | elem (e : Nat)
  | alreadyConstructedMarker
deriving DecidableEq, Repr

/-- The per-element private state object (`setPrivateState(element, ...)`).
Fields that the source leaves absent on some objects are `Option`s or
default to the value an absent field is indistinguishable from
(an absent `reactionQueue` and an empty one behave identically, because
`enqueueCallbackReaction` creates the array on demand and every read
guards on length). -/
structure ElementCEState where
  customElementState : Option CEState := none
  customElementDefinition : Option Nat := none
  reactionQueue : List Reaction := []
  isValue : Option String := none
deriving DecidableEq, Repr

/-- A registered custom element definition. The lifecycle callback table
stores only presence (the functions themselves live in the callback
oracle, keyed by definition index and kind). -/
structure CEDefinition where
  name : String
  localName : String
  ctorId : Nat
  observedAttributes : List String
  hasConnected : Bool
  hasDisconnected : Bool
  hasAdopted : Bool
  hasAttributeChanged : Bool
  constructionStack : List StackEntry
deriving DecidableEq, Repr

/-- The installation record placed on `window` by `install()`.  The
element queue stack is a list whose head is the top of the stack. -/
structure Installation where
  customElementsReactionStack : List (List Nat) := []
  backupElementQueue : List Nat := []
  processingBackupElementQueue : Bool := false
deriving DecidableEq, Repr

/-- A scheduled microtask: the backup-queue drain closure enqueued by
`enqueueElementOnAppropriateElementQueue`, or the `whenDefined`
resolution closure enqueued by `define`. -/
inductive Microtask
  | drainBackup
  | resolveWhenDefined (name : String)
deriving DecidableEq, Repr

/-- The explicit module/global state.  `reportedErrors` is the external
error sink (`$utils.reportError`); `invocationLog` is a ghost trace
field recording, in order, every reaction handed to the invocation loop
(it is written only at the single invocation site and never read by the
model, and exists purely so that invocation order can be stated). -/
structure RuntimeState where
  installation : Option Installation := none
  elemState : List (Nat × ElementCEState) := []
  definitions : List CEDefinition := []
  elementDefinitionIsRunning : Bool := false
  whenDefinedPromiseMap : List (String × Bool) := []
  microtasks : List Microtask := []
  documentElements : List Nat := []
  documentLoading : Bool := false
  documentHasView : Bool := true
  reportedErrors : List CEError := []
  invocationLog : List (Nat × Reaction) := []
deriving DecidableEq, Repr

/-- Host-side, read-only properties of an element (attribute list as
`(localName, value, namespaceURI)` triples, connectivity, node kind). -/
structure ElemProps where
  localName : String := ""
  namespaceURI : Option String := none
  isConnected : Bool := false
  attributes : List (String × String × Option String) := []
  nodeTypeIsElement : Bool := true

/-- Host-side description of a constructor object as `define` inspects
it: whether `ctor === ctor.prototype.constructor`, whether the prototype
is an object, which lifecycle callbacks the prototype carries, the
static `observedAttributes` (absent = `none`), and whether reading the
callbacks/observedAttributes throws (a getter may). -/
structure CtorDescriptor where
  protoCtorIsSelf : Bool := true
  protoIsObject : Bool := true
  connected : Bool := false
  disconnected : Bool := false
  adopted : Bool := false
  attributeChanged : Bool := false
  observedAttributes : Option (List String) := none
  readThrows : Option CEError := none

/-- The read-only environment: element properties, constructor
descriptors, and the object-construction hook.  The hook models
`new definition.constructor` during `upgradeElement`: given the current
construction stack it either throws or yields an element identity (the
real hook reads the last stack entry; user constructors may throw). -/
structure Env where
  elems : Nat → ElemProps
  ctors : Nat → CtorDescriptor
  hook : List StackEntry → Except CEError Nat

/-! ## Association-list and definition-table helpers -/

/-- Lookup in the per-element private state store
(`getPrivateState(element)`). -/
def lookupElemList : List (Nat × ElementCEState) → Nat → Option ElementCEState
  | [], _ => none
  | (k, v) :: rest, e => if k = e then some v else lookupElemList rest e

/-- Update/insert in the per-element private state store
(`setPrivateState(element, state)`). -/
def setElemList : List (Nat × ElementCEState) → Nat → ElementCEState →
    List (Nat × ElementCEState)
  | [], e, s => [(e, s)]
  | (k, v) :: rest, e, s =>
      if k = e then (e, s) :: rest else (k, v) :: setElemList rest e s

def lookupElem (st : RuntimeState) (e : Nat) : Option ElementCEState :=
  lookupElemList st.elemState e

def setElem (st : RuntimeState) (e : Nat) (s : ElementCEState) : RuntimeState :=
  { st with elemState := setElemList st.elemState e s }

/-- Indexing into the definition table (`privateState.definitions[i]`). -/
def getDefList : List CEDefinition → Nat → Option CEDefinition
  | [], _ => none
  | d :: _, 0 => some d
  | _ :: rest, n + 1 => getDefList rest n

/-- In-place update of one definition table entry (used for the mutable
`constructionStack` field). -/
def modifyDefList : List CEDefinition → Nat → (CEDefinition → CEDefinition) →
    List CEDefinition
  | [], _, _ => []
  | d :: rest, 0, f => f d :: rest
  | d :: rest, n + 1, f => d :: modifyDefList rest n f

def getDef (st : RuntimeState) (di : Nat) : Option CEDefinition :=
  getDefList st.definitions di

def modifyDef (st : RuntimeState) (di : Nat) (f : CEDefinition → CEDefinition) :
    RuntimeState :=
  { st with definitions := modifyDefList st.definitions di f }

/-! ## Name validator (`isValidCustomElementName`) -/

/-- The fixed deny-list handled by the `switch` at the top of
`isValidCustomElementName`. -/
def isForbiddenName (localName : String) : Bool :=
  localName == "annotation-xml" ||
  localName == "color-profile" ||
  localName == "font-face" ||
  localName == "font-face-src" ||
  localName == "font-face-uri" ||
  localName == "font-face-format" ||
  localName == "font-face-name" ||
  localName == "missing-glyph"

/-- JavaScript strings are sequences of UTF-16 code units and
`charCodeAt` reads one unit; a Lean `String` is a sequence of Unicode
scalar values.  This is the UTF-16 encoding of a string, so that the
embedded validator sees exactly the units the source's loop sees
(code points above `0xFFFF` become a surrogate pair). -/
def utf16Units (s : String) : List Nat :=
  s.data.flatMap fun c =>
    let n := c.toNat
    if n < 0x10000 then [n]
    else [0xD800 + (n - 0x10000) / 0x400, 0xDC00 + (n - 0x10000) % 0x400]

/-- The body of the character loop of `isValidCustomElementName`,
tracking `foundHyphen` exactly as the source does.  Branch order matches
the source; a code unit matching no branch returns `false` immediately. -/
def validNameTailLoop : List Nat → Bool → Bool
  | [], foundHyphen => foundHyphen
  | code :: rest, foundHyphen =>
      if 0x61 ≤ code ∧ code ≤ 0x7A then validNameTailLoop rest foundHyphen
      else if code = 0x2D then validNameTailLoop rest true
      else if code = 0x2E ∨ code = 0x5F ∨ code = 0xB7 then
        validNameTailLoop rest foundHyphen
      else if 0x30 ≤ code ∧ code ≤ 0x39 then validNameTailLoop rest foundHyphen
      else if code < 0xC0 then false
      else if 0xC0 ≤ code ∧ code ≤ 0xD6 then validNameTailLoop rest foundHyphen
      else if 0xD8 ≤ code ∧ code ≤ 0xF6 then validNameTailLoop rest foundHyphen
      else if 0xF8 ≤ code ∧ code ≤ 0x37D then validNameTailLoop rest foundHyphen
      else if 0x37F ≤ code ∧ code ≤ 0x1FFF then validNameTailLoop rest foundHyphen
      else if 0x200C ≤ code ∧ code ≤ 0x200D then validNameTailLoop rest foundHyphen
      else if 0x203F ≤ code ∧ code ≤ 0x2040 then validNameTailLoop rest foundHyphen
      else if 0x2070 ≤ code ∧ code ≤ 0x218F then validNameTailLoop rest foundHyphen
      else if 0x2C00 ≤ code ∧ code ≤ 0x2FEF then validNameTailLoop rest foundHyphen
      else if 0x3001 ≤ code ∧ code ≤ 0xD7FF then validNameTailLoop rest foundHyphen
      else if 0xF900 ≤ code ∧ code ≤ 0xFDCF then validNameTailLoop rest foundHyphen
      else if 0xFDF0 ≤ code ∧ code ≤ 0xFFFD then validNameTailLoop rest foundHyphen
      else if 0x10000 ≤ code ∧ code ≤ 0xEFFFF then validNameTailLoop rest foundHyphen
      else false

/-- `isValidCustomElementName(localName)`: deny-list, length ≥ 2 (in
UTF-16 code units, JavaScript's `String#length`), first unit in `[a-z]`,
then the character loop. -/
def isValidCustomElementName (localName : String) : Bool :=
  if isForbiddenName localName then false
  else
    let units := utf16Units localName
    if units.length < 2 then false
    else
      match units with
      | [] => false
      | firstCode :: rest =>
          if firstCode < 0x61 ∨ 0x7A < firstCode then false
          else validNameTailLoop rest false

/-! ### The valid-name predicate as the specification words it

The spec (and claim C5) describes the validator over Unicode *code
points*: "every remaining character is in `[a-z0-9._·-]` or in the
code-point ranges ... 0x10000–0xEFFFF".  The following definitions state
that predicate literally, for comparison with the source function. -/

/-- One tail character, per the spec's wording, judged as a code point. -/
def specValidTailChar (n : Nat) : Bool :=
  (0x61 ≤ n ∧ n ≤ 0x7A) ∨ (0x30 ≤ n ∧ n ≤ 0x39) ∨
  n = 0x2E ∨ n = 0x5F ∨ n = 0xB7 ∨ n = 0x2D ∨
  (0xC0 ≤ n ∧ n ≤ 0xD6) ∨ (0xD8 ≤ n ∧ n ≤ 0xF6) ∨
  (0xF8 ≤ n ∧ n ≤ 0x37D) ∨ (0x37F ≤ n ∧ n ≤ 0x1FFF) ∨
  (0x200C ≤ n ∧ n ≤ 0x200D) ∨ (0x203F ≤ n ∧ n ≤ 0x2040) ∨
  (0x2070 ≤ n ∧ n ≤ 0x218F) ∨ (0x2C00 ≤ n ∧ n ≤ 0x2FEF) ∨
  (0x3001 ≤ n ∧ n ≤ 0xD7FF) ∨ (0xF900 ≤ n ∧ n ≤ 0xFDCF) ∨
  (0xFDF0 ≤ n ∧ n ≤ 0xFFFD) ∨ (0x10000 ≤ n ∧ n ≤ 0xEFFFF)

/-- The claim's description of the validator, judged over code points:
not reserved, length ≥ 2, first character in `[a-z]`, every remaining
character a `specValidTailChar`, and a literal hyphen after position 0. -/
def specValidCustomElementName (s : String) : Bool :=
  let cps := s.data.map Char.toNat
  !isForbiddenName s &&
  decide (2 ≤ cps.length) &&
  (match cps with
   | [] => false
   | firstCode :: rest =>
       decide (0x61 ≤ firstCode ∧ firstCode ≤ 0x7A) &&
       rest.all (fun n => specValidTailChar n) &&
       rest.contains 0x2D)

/-! ## Utility predicates -/

/-- `shouldNotUpgrade(privateState)`: true iff a state exists and it is
`custom` or `failed`. -/
def shouldNotUpgrade (privateState : Option ElementCEState) : Bool :=
  match privateState with
  | none => false
  | some s =>
      s.customElementState = some CEState.custom ||
      s.customElementState = some CEState.failed

/-- Presence of a lifecycle callback of the given kind in a definition
(`definition.lifecycleCallbacks[callbackName] != null`). -/
def hasCallback (d : CEDefinition) (k : CallbackKind) : Bool :=
  match k with
  | .connected => d.hasConnected
  | .disconnected => d.hasDisconnected
  | .adopted => d.hasAdopted
  | .attributeChanged => d.hasAttributeChanged

/-! ## Reaction queue engine -/

/-- `enqueueElementOnAppropriateElementQueue(element)`: no-op when the
runtime is not installed; with an empty reaction stack, append to the
backup queue and schedule the (single-flight) drain microtask; otherwise
append to the queue on top of the stack. -/
def enqueueElementOnAppropriateElementQueue (e : Nat) (st : RuntimeState) :
    RuntimeState :=
  match st.installation with
  | none => st
  | some inst =>
      match inst.customElementsReactionStack with
      | [] =>
          let inst := { inst with
            backupElementQueue := inst.backupElementQueue ++ [e] }
          if inst.processingBackupElementQueue then
            { st with installation := some inst }
          else
            { st with
              installation := some { inst with
                processingBackupElementQueue := true },
              microtasks := st.microtasks ++ [Microtask.drainBackup] }
      | top :: rest =>
          { st with
            installation := some { inst with
              customElementsReactionStack := (top ++ [e]) :: rest } }

/-- The `observedAttributes` guard of `enqueueCallbackReaction`: for an
`attributeChangedCallback` reaction, `args[0]` must be an observed
attribute name (`indexOf(...) === -1` is `true` here, i.e. "skip"). -/
def attributeNotObserved (d : CEDefinition) (args : List (Option String)) :
    Bool :=
  match args.head? with
  | some (some attributeName) => !(d.observedAttributes.contains attributeName)
  | _ => true

/-- `enqueueCallbackReaction(element, callbackName, args)`.  Reading a
property of an absent private state or of a `null` definition throws a
`TypeError` in JavaScript; those reads are the two error exits.  A
missing callback, or an unobserved attribute name for
`attributeChangedCallback`, is a silent no-op. -/
def enqueueCallbackReaction (e : Nat) (k : CallbackKind)
    (args : List (Option String)) (st : RuntimeState) :
    RuntimeState × Option CEError :=
  match lookupElem st e with
  | none => (st, some CEError.typeError)
  | some es =>
      match es.customElementDefinition with
      | none => (st, some CEError.typeError)
      | some di =>
          match getDef st di with
          | none => (st, some CEError.typeError)
          | some d =>
              if !hasCallback d k then (st, none)
              else if decide (k = CallbackKind.attributeChanged) &&
                  attributeNotObserved d args then (st, none)
              else
                (enqueueElementOnAppropriateElementQueue e
                  (setElem st e { es with
                    reactionQueue := es.reactionQueue ++ [.callback di k args] }),
                 none)

/-- `enqueueUpgradeReaction(element, definition)`: ensure a private
state exists, record the definition, append an upgrade reaction, place
the element on the appropriate queue. -/
def enqueueUpgradeReaction (e di : Nat) (st : RuntimeState) : RuntimeState :=
  let es := (lookupElem st e).getD {}
  let es := { es with
    customElementDefinition := some di,
    reactionQueue := es.reactionQueue ++ [Reaction.upgrade di] }
  enqueueElementOnAppropriateElementQueue e (setElem st e es)

/-! ## Upgrade algorithm (`upgradeElement`) -/

/-- Outcome of the pre-construction phase of `upgradeElement` (steps up
to and including the connected enqueue): early return because
`shouldNotUpgrade`, an exception propagating out of an enqueue, or
proceed to construction. -/
inductive UpgradePre
  | earlyReturn (st : RuntimeState)
  | threw (st : RuntimeState) (err : CEError)
  | proceed (st : RuntimeState)
deriving DecidableEq, Repr

/-- The attribute loop of `upgradeElement`: one
`attributeChangedCallback` enqueue per attribute currently present, with
arguments `[localName, null, value, namespaceURI]`.  (The accompanying
`$Attr.patchAttributeNodeIfNeeded` call patches the host attribute
object only and does not touch the modelled state.) -/
def enqueueAttributeReactions (e : Nat) :
    List (String × String × Option String) → RuntimeState →
    RuntimeState × Option CEError
  | [], st => (st, none)
  | a :: rest, st =>
      match enqueueCallbackReaction e CallbackKind.attributeChanged
          [some a.1, none, some a.2.1, a.2.2] st with
      | (st, some err) => (st, some err)
      | (st, none) => enqueueAttributeReactions e rest st

/-- Steps 2–3 of the upgrade: enqueue attribute-changed reactions for
every present attribute, then a connected reaction if the element is
connected. -/
def upgradeEnqueuePhase (env : Env) (e : Nat) (st : RuntimeState) : UpgradePre :=
  match enqueueAttributeReactions e (env.elems e).attributes st with
  | (st, some err) => .threw st err
  | (st, none) =>
      if (env.elems e).isConnected then
        match enqueueCallbackReaction e CallbackKind.connected [] st with
        | (st, some err) => .threw st err
        | (st, none) => .proceed st
      else .proceed st

/-- Step 1 plus steps 2–3 of `upgradeElement`: create the private state
if absent, return early if `shouldNotUpgrade`, then run the enqueue
phase. -/
def upgradeElementPre (env : Env) (e di : Nat) (st : RuntimeState) : UpgradePre :=
  match lookupElem st e with
  | none =>
      upgradeEnqueuePhase env e
        (setElem st e { reactionQueue := [], customElementDefinition := some di })
  | some es =>
      if shouldNotUpgrade (some es) then .earlyReturn st
      else upgradeEnqueuePhase env e st

/-- The result of the `try { new definition.constructor; ... }` block:
the caught error, if any.  The identity check turns a successful
construction of the wrong element into an `InvalidStateError`. -/
def upgradeCaught (hookResult : Except CEError Nat) (e : Nat) : Option CEError :=
  match hookResult with
  | .error err => some err
  | .ok r => if r = e then none else some CEError.invalidStateError

/-- `definition.constructionStack.push(element)`. -/
def pushConstructionStack (di e : Nat) (st : RuntimeState) : RuntimeState :=
  modifyDef st di fun d =>
    { d with constructionStack := d.constructionStack ++ [StackEntry.elem e] }

/-- `definition.constructionStack.pop()` (the popped value is unused). -/
def popConstructionStack (di : Nat) (st : RuntimeState) : RuntimeState :=
  modifyDef st di fun d =>
    { d with constructionStack := d.constructionStack.dropLast }

/-- The construction stack the hook observes. -/
def currentConstructionStack (st : RuntimeState) (di : Nat) : List StackEntry :=
  match getDef st di with
  | some d => d.constructionStack
  | none => []

/-- The body of the `catch` in `upgradeElement`: set the state to
`failed`, clear the definition, splice the reaction queue empty.  (The
accompanying `delete element.prototype` touches only the host object.) -/
def upgradeFailureTransition (e : Nat) (st : RuntimeState) : RuntimeState :=
  match lookupElem st e with
  | some es =>
      setElem st e { es with
        customElementState := some CEState.failed,
        customElementDefinition := none,
        reactionQueue := [] }
  | none => st

/-- The final line of `upgradeElement`: mark the element `custom`. -/
def upgradeSuccessTransition (e : Nat) (st : RuntimeState) :
    RuntimeState × Option CEError :=
  match lookupElem st e with
  | some es =>
      (setElem st e { es with customElementState := some CEState.custom }, none)
  | none => (st, none)

/-- Run the construction hook on the pushed stack; on a caught error,
perform the failure transition, pop the stack and re-raise; on success,
pop the stack and mark the element custom.  The pop appears in both
arms: it happens regardless of whether the hook threw. -/
def upgradeRunHook (env : Env) (e di : Nat) (st : RuntimeState) :
    RuntimeState × Option CEError :=
  match upgradeCaught (env.hook (currentConstructionStack st di)) e with
  | some err =>
      (popConstructionStack di (upgradeFailureTransition e st), some err)
  | none => upgradeSuccessTransition e (popConstructionStack di st)

/-- Steps 4–9 of `upgradeElement`: push the element on the definition's
construction stack, then run the hook and the outcome transitions. -/
def upgradeConstructPhase (env : Env) (e di : Nat) (st : RuntimeState) :
    RuntimeState × Option CEError :=
  upgradeRunHook env e di (pushConstructionStack di e st)

/-- `upgradeElement(element, definition)`, the composition of the two
phases. -/
def upgradeElement (env : Env) (e di : Nat) (st : RuntimeState) :
    RuntimeState × Option CEError :=
  match upgradeElementPre env e di st with
  | .earlyReturn st => (st, none)
  | .threw st err => (st, some err)
  | .proceed st => upgradeConstructPhase env e di st

/-! ## User callbacks as command sequences

Script code invoked as a lifecycle callback can only reach the module
state through the module's API; a callback is therefore modelled as a
finite sequence of commands against that API, optionally ending in a
thrown exception.  The oracle `CbOracle` chooses the command list from
the stored definition index, the callback kind, the arguments, and the
state at invocation time. -/

/-- One action a user callback can take. -/
inductive UserCmd
  | enqCb (e : Nat) (k : CallbackKind) (args : List (Option String))
  | enqUp (e : Nat) (di : Nat)
  | throwErr (err : CEError)
deriving DecidableEq, Repr

/-- Run a callback body: execute its commands in order; a `throwErr`
command, or a `TypeError` escaping one of the API calls, aborts the rest
of the body and propagates. -/
def interpretCmds : List UserCmd → RuntimeState → RuntimeState × Option CEError
  | [], st => (st, none)
  | c :: cs, st =>
      match c with
      | .throwErr err => (st, some err)
      | .enqCb e k args =>
          match enqueueCallbackReaction e k args st with
          | (st, some err) => (st, some err)
          | (st, none) => interpretCmds cs st
      | .enqUp e di => interpretCmds cs (enqueueUpgradeReaction e di st)

/-- The callback oracle: the behaviour of every user lifecycle callback. -/
def CbOracle : Type :=
  Nat → Nat → CallbackKind → List (Option String) → RuntimeState → List UserCmd

/-! ## Reaction invocation (`invokeReactions`) -/

/-- The body of the `try` block of the invocation loop: dispatch one
reaction (upgrade → `upgradeElement`, callback → invoke the stored
callable). -/
def dispatchReaction (env : Env) (cb : CbOracle) (e : Nat) (r : Reaction)
    (st : RuntimeState) : RuntimeState × Option CEError :=
  match r with
  | .upgrade di => upgradeElement env e di st
  | .callback di k args => interpretCmds (cb di e k args st) st

/-- The `$utils.reportError` sink. -/
def reportError (err : CEError) (st : RuntimeState) : RuntimeState :=
  { st with reportedErrors := st.reportedErrors ++ [err] }

/-- Ghost trace write: record that a reaction is about to be invoked. -/
def pushLog (st : RuntimeState) (e : Nat) (r : Reaction) : RuntimeState :=
  { st with invocationLog := st.invocationLog ++ [(e, r)] }

/-- One iteration of the `while (reactions.length)` body: the front
reaction has already been spliced out by the caller; dispatch it and
catch any exception, forwarding it to the error sink. -/
def invokeOneReaction (env : Env) (cb : CbOracle) (e : Nat) (r : Reaction)
    (st : RuntimeState) : RuntimeState :=
  match dispatchReaction env cb e r (pushLog st e r) with
  | (st, some err) => reportError err st
  | (st, none) => st

/-- The inner `while` loop of `invokeReactions`: repeatedly splice the
front reaction off the element's own reaction queue and invoke it until
the queue is empty.  The JavaScript loop holds a reference to the live
queue array, which is only ever mutated in place, so re-reading the
queue from the state each iteration is the same computation.  Reading
`reactionQueue` of an element with no private state throws a `TypeError`
*outside* the `try`, which aborts the whole loop.  Fuel bounds the
number of iterations (a callback may refill the queue forever); `none`
means fuel ran out. -/
def invokeElementReactions (env : Env) (cb : CbOracle) :
    Nat → Nat → RuntimeState → Option (RuntimeState × Option CEError)
  | 0, _, _ => none
  | fuel + 1, e, st =>
      match lookupElem st e with
      | none => some (st, some CEError.typeError)
      | some es =>
          match es.reactionQueue with
          | [] => some (st, none)
          | r :: rest =>
              let st := setElem st e { es with reactionQueue := rest }
              invokeElementReactions env cb fuel e (invokeOneReaction env cb e r st)

/-- Where the queue argument of `invokeReactions` comes from: a detached
array (a queue popped off the reaction stack) or the live
`installation.backupElementQueue`, which nested enqueues may extend
while the loop runs. -/
inductive QueueSrc
  | fixedQ (q : List Nat)
  | liveBackup
deriving DecidableEq, Repr

/-- The current contents of the queue being iterated. -/
def queueOf (src : QueueSrc) (st : RuntimeState) : List Nat :=
  match src with
  | .fixedQ q => q
  | .liveBackup =>
      match st.installation with
      | some inst => inst.backupElementQueue
      | none => []

/-- The outer `for (i = 0; i < queue.length; i++)` loop of
`invokeReactions`: the length is re-read from the live queue on every
iteration.  Returns the final state, the escaping error if the inner
loop threw, and the final loop index. -/
def invokeReactionsLoop (env : Env) (cb : CbOracle) :
    Nat → QueueSrc → Nat → RuntimeState →
    Option (RuntimeState × Option CEError × Nat)
  | 0, _, _, _ => none
  | fuel + 1, src, i, st =>
      let q := queueOf src st
      if i < q.length then
        match invokeElementReactions env cb fuel (q.getD i 0) st with
        | none => none
        | some (st, some err) => some (st, some err, i)
        | some (st, none) => invokeReactionsLoop env cb fuel src (i + 1) st
      else some (st, none, i)

/-- `invokeReactions(queue)`. -/
def invokeReactions (env : Env) (cb : CbOracle) (fuel : Nat) (src : QueueSrc)
    (st : RuntimeState) : Option (RuntimeState × Option CEError) :=
  (invokeReactionsLoop env cb fuel src 0 st).map fun res => (res.1, res.2.1)

/-! ## CEReactions scope (`executeCEReactions`) and microtasks -/

/-- The `invokeReactions(stack.pop())` tail of `executeCEReactions`:
pop the queue pushed at entry and invoke the reactions it gathered.
(The two defensive arms for a missing installation or an empty stack are
unreachable from `executeCEReactions`, which just pushed a queue.) -/
def popAndInvoke (env : Env) (cb : CbOracle) (fuel : Nat) (st : RuntimeState) :
    Option (RuntimeState × Option CEError) :=
  match st.installation with
  | none => some (st, none)
  | some inst =>
      match inst.customElementsReactionStack with
      | [] => some (st, none)
      | q :: rest =>
          invokeReactions env cb fuel (.fixedQ q)
            { st with installation := some { inst with
                customElementsReactionStack := rest } }

/-- What happens after the work body of `executeCEReactions` returns: a
throwing body propagates immediately — before the pop, exactly as in the
source, which has no `finally` — while a normal return pops and invokes. -/
def executeScopeBody (env : Env) (cb : CbOracle) (fuel : Nat)
    (workResult : RuntimeState × Option CEError) :
    Option (RuntimeState × Option CEError) :=
  match workResult with
  | (st, some err) => some (st, some err)
  | (st, none) => popAndInvoke env cb fuel st

/-- `executeCEReactions(callback)`: with no installation, just run the
work.  Otherwise push a fresh queue onto the reaction stack, run the
work, and proceed per `executeScopeBody`. -/
def executeCEReactions (env : Env) (cb : CbOracle) (fuel : Nat)
    (work : RuntimeState → RuntimeState × Option CEError) (st : RuntimeState) :
    Option (RuntimeState × Option CEError) :=
  match st.installation with
  | none => some (work st)
  | some inst =>
      executeScopeBody env cb fuel
        (work { st with installation := some { inst with
          customElementsReactionStack :=
            [] :: inst.customElementsReactionStack } })

/-- The effect of the `whenDefined` resolution microtask: resolve the
promise (host side) and null the map entry. -/
def resolveWhenDefinedTask (name : String) (st : RuntimeState) : RuntimeState :=
  { st with whenDefinedPromiseMap :=
      st.whenDefinedPromiseMap.map fun p =>
        if p.1 = name then (p.1, false) else p }

/-- `installation.processingBackupElementQueue = false` at the end of
the drain task. -/
def clearProcessingFlag (st : RuntimeState) : RuntimeState :=
  match st.installation with
  | none => st
  | some inst =>
      { st with installation := some { inst with
          processingBackupElementQueue := false } }

/-- Run one dequeued microtask.  The backup drain task invokes reactions
over the live backup queue and then clears the processing flag; the flag
is *not* cleared when `invokeReactions` throws. -/
def runMicrotask (env : Env) (cb : CbOracle) (fuel : Nat) (t : Microtask)
    (st : RuntimeState) : Option (RuntimeState × Option CEError) :=
  match t with
  | .resolveWhenDefined name => some (resolveWhenDefinedTask name st, none)
  | .drainBackup =>
      match invokeReactions env cb fuel .liveBackup st with
      | none => none
      | some (st, some err) => some (st, some err)
      | some (st, none) => some (clearProcessingFlag st, none)

/-- Dequeue and run the microtask at the head of the queue (a no-op on
an empty queue). -/
def runMicrotaskHead (env : Env) (cb : CbOracle) (fuel : Nat)
    (st : RuntimeState) : Option (RuntimeState × Option CEError) :=
  match st.microtasks with
  | [] => some (st, none)
  | t :: rest => runMicrotask env cb fuel t { st with microtasks := rest }

/-! ## Definition lookup and `tryToUpgradeElement` -/

def htmlNamespace : String := "http://www.w3.org/1999/xhtml"

/-- The scan of `lookupCustomElementDefinition`: first definition whose
`localName` matches and whose `name` equals the local name (autonomous)
or the element's `is` value (customized built-in). -/
def lookupDefLoop (localName : String) (isVal : Option String) :
    List CEDefinition → Nat → Option Nat
  | [], _ => none
  | d :: rest, i =>
      if d.localName = localName ∧ (d.name = localName ∨ some d.name = isVal)
      then some i
      else lookupDefLoop localName isVal rest (i + 1)

/-- `lookupCustomElementDefinition(document, nameSpace, localName, is)`:
`null` unless the namespace is the HTML namespace and the document has a
browsing context. -/
def lookupCustomElementDefinitionIdx (st : RuntimeState)
    (nameSpace : Option String) (localName : String) (isVal : Option String) :
    Option Nat :=
  if nameSpace ≠ some htmlNamespace then none
  else if !st.documentHasView then none
  else lookupDefLoop localName isVal st.definitions 0

/-- `tryToUpgradeElement(element)`: no-op for already custom or failed
elements; otherwise look up a matching definition and, if found, enqueue
an upgrade reaction. -/
def tryToUpgradeLookup (env : Env) (e : Nat) (isValue : Option String)
    (st : RuntimeState) : RuntimeState :=
  match lookupCustomElementDefinitionIdx st (env.elems e).namespaceURI
      (env.elems e).localName isValue with
  | some di => enqueueUpgradeReaction e di st
  | none => st

def tryToUpgradeElement (env : Env) (e : Nat) (st : RuntimeState) :
    RuntimeState :=
  match lookupElem st e with
  | some s =>
      if shouldNotUpgrade (some s) then st
      else tryToUpgradeLookup env e s.isValue st
  | none => tryToUpgradeLookup env e none st

/-! ## Registry facade (`define`, `get`, `whenDefined`) -/

/-- The upgrade sweep `define` performs over the document once a
definition is registered (skipped while the document is loading).  For a
customized built-in (`extensionOf` set) the source reads
`getPrivateState(node).isValue`, which throws a `TypeError` when the
node has no private state. -/
def sweepUpgrades (env : Env) (localName : String) (extensionOf : Option String)
    (di : Nat) : List Nat → RuntimeState → RuntimeState × Option CEError
  | [], st => (st, none)
  | node :: rest, st =>
      if (env.elems node).nodeTypeIsElement ∧
          (env.elems node).namespaceURI = some htmlNamespace ∧
          (env.elems node).localName = localName then
        match extensionOf with
        | some ext =>
            match lookupElem st node with
            | none => (st, some CEError.typeError)
            | some ns =>
                if ns.isValue ≠ some ext then
                  sweepUpgrades env localName extensionOf di rest st
                else
                  sweepUpgrades env localName extensionOf di rest
                    (enqueueUpgradeReaction node di st)
        | none =>
            sweepUpgrades env localName extensionOf di rest
              (enqueueUpgradeReaction node di st)
      else sweepUpgrades env localName extensionOf di rest st

/-- The `try`-block reads of `define`: a non-object prototype throws a
`TypeError`, and reading the callbacks or `observedAttributes` may throw
(`readThrows`).  The caught error, if any. -/
def defineReadCallbacks (c : CtorDescriptor) : Option CEError :=
  if !c.protoIsObject then some CEError.typeError else c.readThrows

/-- The `observedAttributes` snapshot: taken only when an
`attributeChangedCallback` is present (and nothing threw); absent static
declaration means the empty list. -/
def defineObservedAttributes (c : CtorDescriptor) : List String :=
  if c.protoIsObject ∧ c.readThrows = none ∧ c.attributeChanged then
    c.observedAttributes.getD []
  else []

/-- The `CustomElementDefinition` record `define` builds. -/
def mkDefinition (name localName : String) (ctorId : Nat)
    (c : CtorDescriptor) : CEDefinition :=
  { name := name, localName := localName, ctorId := ctorId,
    observedAttributes := defineObservedAttributes c,
    hasConnected := c.connected, hasDisconnected := c.disconnected,
    hasAdopted := c.adopted, hasAttributeChanged := c.attributeChanged,
    constructionStack := [] }

/-- `privateState.definitions.push(definition)` — the source has
`// TODO: check for already defined name` and performs no duplicate
check before appending. -/
def defineAppendDefinition (d : CEDefinition) (st : RuntimeState) :
    RuntimeState :=
  { st with definitions := st.definitions ++ [d] }

/-- The document sweep of `define`, skipped while the document is
loading. -/
def defineSweep (env : Env) (localName : String) (extensionOf : Option String)
    (di : Nat) (st : RuntimeState) : RuntimeState × Option CEError :=
  if st.documentLoading then (st, none)
  else sweepUpgrades env localName extensionOf di st.documentElements st

/-- Schedule the `whenDefined` resolution microtask when a live (not yet
nulled) map entry exists for the name. -/
def defineSchedulePromise (name : String) (st : RuntimeState) : RuntimeState :=
  if st.whenDefinedPromiseMap.any fun p => p.1 = name ∧ p.2 then
    { st with microtasks := st.microtasks ++ [Microtask.resolveWhenDefined name] }
  else st

/-- The continuation of `define` after the sweep result. -/
def defineAfterSweep (name : String) (swept : RuntimeState × Option CEError) :
    RuntimeState × Option CEError :=
  match swept with
  | (st, some err) => (st, some err)
  | (st, none) => (defineSchedulePromise name st, none)

/-- The continuation of `define` after the running-flag round trip:
re-raise the caught read error, or append the definition (at index
`st.definitions.length`) and continue with the sweep and the promise
resolution. -/
def defineFinish (env : Env) (name : String) (ctorId : Nat)
    (localName : String) (extensionOf : Option String) (st : RuntimeState) :
    RuntimeState × Option CEError :=
  match defineReadCallbacks (env.ctors ctorId) with
  | some err => (st, some err)
  | none =>
      defineAfterSweep name
        (defineSweep env localName extensionOf st.definitions.length
          (defineAppendDefinition
            (mkDefinition name localName ctorId (env.ctors ctorId)) st))

/-- The tail of `define` beginning at the `elementDefinitionIsRunning`
check.  The flag is set, the constructor is inspected (pure reads in
this model), and the flag is cleared again before the caught error, if
any, is re-raised; the set/clear round trip leaves the flag `false` on
every exit path of the try/catch, which the composed state update
records directly. -/
def defineRest (env : Env) (name : String) (ctorId : Nat) (localName : String)
    (extensionOf : Option String) (st : RuntimeState) :
    RuntimeState × Option CEError :=
  if st.elementDefinitionIsRunning then (st, some CEError.notSupportedError)
  else
    defineFinish env name ctorId localName extensionOf
      { st with elementDefinitionIsRunning := false }

/-- The body of `CustomElementRegistry.define` (the function passed to
`executeCEReactions`).  `opts` is `options.extends`.  In the
`extends` branch the source evaluates
`Object.getPrototypeOf(testElement).constructor` where `testElement` is
not defined anywhere in the module, so reaching that line throws a
`ReferenceError`. -/
def defineInner (env : Env) (name : String) (ctorId : Nat)
    (opts : Option String) (st : RuntimeState) : RuntimeState × Option CEError :=
  if !(env.ctors ctorId).protoCtorIsSelf then (st, some CEError.typeError)
  else if !isValidCustomElementName name then (st, some CEError.syntaxError)
  else
    match opts with
    | some ext =>
        if isValidCustomElementName ext then (st, some CEError.notSupportedError)
        else (st, some CEError.referenceError)
    | none => defineRest env name ctorId name none st

/-- `CustomElementRegistry.define(name, constructor, options)`: the body
runs inside a CEReactions scope. -/
def defineOp (env : Env) (cb : CbOracle) (fuel : Nat) (name : String)
    (ctorId : Nat) (opts : Option String) (st : RuntimeState) :
    Option (RuntimeState × Option CEError) :=
  executeCEReactions env cb fuel (defineInner env name ctorId opts) st

/-- `CustomElementRegistry.get(name)`: linear scan, first match by name,
returning the registered constructor. -/
def registryGet (st : RuntimeState) (name : String) : Option Nat :=
  (st.definitions.find? fun d => d.name = name).map fun d => d.ctorId

/-- `CustomElementRegistry.whenDefined(name)` (the promise value itself
is host-side; the modelled effect is the validity check and the map
entry).  The promise-polyfill availability check is a host-environment
guard assumed satisfied. -/
def whenDefinedOp (name : String) (st : RuntimeState) :
    RuntimeState × Option CEError :=
  if !isValidCustomElementName name then (st, some CEError.syntaxError)
  else if st.definitions.any fun d => d.name = name then (st, none)
  else
    match st.whenDefinedPromiseMap.find? fun p => p.1 = name with
    | some (_, true) => (st, none)
    | some (_, false) =>
        ({ st with whenDefinedPromiseMap :=
            st.whenDefinedPromiseMap.map fun p =>
              if p.1 = name then (p.1, true) else p }, none)
    | none =>
        ({ st with whenDefinedPromiseMap :=
            st.whenDefinedPromiseMap ++ [(name, true)] }, none)

/-! ## State observers and the cross-operation preservation facts -/

/-- The backup element queue (empty when not installed). -/
def backupOf (st : RuntimeState) : List Nat :=
  match st.installation with
  | some inst => inst.backupElementQueue
  | none => []

/-- The `processingBackupElementQueue` flag (false when not installed). -/
def processingFlag (st : RuntimeState) : Bool :=
  match st.installation with
  | some inst => inst.processingBackupElementQueue
  | none => false

def isDrainTask : Microtask → Bool
  | .drainBackup => true
  | .resolveWhenDefined _ => false

/-- Number of pending backup-queue drain microtasks. -/
def drainCount (st : RuntimeState) : Nat :=
  st.microtasks.countP isDrainTask

/-- The single-flight scheduling invariant: at most one drain task is
pending, and none is pending while the processing flag is clear. -/
def Inv (st : RuntimeState) : Prop :=
  drainCount st ≤ 1 ∧ (processingFlag st = false → drainCount st = 0)

/-- Facts preserved by every operation reachable from inside an
invocation pass: the backup queue only ever grows at the tail, element
private states are never removed, the error sink and ghost log only
grow, the processing flag is never cleared (and the drain-task count
never changes) while it is set, and the scheduling invariant is
maintained. -/
structure Preserves (st st' : RuntimeState) : Prop where
  backup : ∃ t, backupOf st' = backupOf st ++ t
  elems : ∀ e, (lookupElem st e).isSome = true → (lookupElem st' e).isSome = true
  reports : ∃ t, st'.reportedErrors = st.reportedErrors ++ t
  log : ∃ t, st'.invocationLog = st.invocationLog ++ t
  drainFrame : processingFlag st = true →
    processingFlag st' = true ∧ drainCount st' = drainCount st
  inv : Inv st → Inv st'

/-- The state carried by an `UpgradePre` outcome. -/
def UpgradePre.state : UpgradePre → RuntimeState
  | .earlyReturn st => st
  | .threw st _ => st
  | .proceed st => st

/-! ## The public-operation step relation -/

/-- One step of the runtime as driven from outside: a collaborator hook
enqueues a callback or upgrade reaction or tries an upgrade, script
calls `define`, `whenDefined` or any CEReactions-scoped operation whose
tree-mutation side effects are user commands, or the host runs the
microtask at the head of the queue. -/
inductive Step (env : Env) (cb : CbOracle) : RuntimeState → RuntimeState → Prop
  | enqCb (e : Nat) (k : CallbackKind) (args : List (Option String))
      (st st' : RuntimeState) (r : Option CEError)
      (h : enqueueCallbackReaction e k args st = (st', r)) : Step env cb st st'
  | enqUp (e di : Nat) (st : RuntimeState) :
      Step env cb st (enqueueUpgradeReaction e di st)
  | tryUp (e : Nat) (st : RuntimeState) :
      Step env cb st (tryToUpgradeElement env e st)
  | defineS (fuel : Nat) (name : String) (ctorId : Nat) (opts : Option String)
      (st st' : RuntimeState) (r : Option CEError)
      (h : defineOp env cb fuel name ctorId opts st = some (st', r)) :
      Step env cb st st'
  | whenDef (name : String) (st st' : RuntimeState) (r : Option CEError)
      (h : whenDefinedOp name st = (st', r)) : Step env cb st st'
  | scope (fuel : Nat) (cmds : List UserCmd) (st st' : RuntimeState)
      (r : Option CEError)
      (h : executeCEReactions env cb fuel (interpretCmds cmds) st =
        some (st', r)) : Step env cb st st'
  | micro (fuel : Nat) (st st' : RuntimeState) (r : Option CEError)
      (h : runMicrotaskHead env cb fuel st = some (st', r)) : Step env cb st st'

/-- Reachability through the public operations. -/
def Reachable (env : Env) (cb : CbOracle) (st₀ st : RuntimeState) : Prop :=
  Relation.ReflTransGen (Step env cb) st₀ st

/-- The state right after `install()`: empty reaction stack, empty
backup queue, clear processing flag, no pending microtask. -/
def CEInit (st : RuntimeState) : Prop :=
  st.installation = some ⟨[], [], false⟩ ∧ st.microtasks = []

/-! ## Concrete runtimes used by the closed theorems and witnesses -/

/-- An environment with no attributes, default constructors and an
always-throwing construction hook. -/
def envTrivial : Env :=
  { elems := fun _ => {}, ctors := fun _ => {},
    hook := fun _ => Except.error CEError.invalidStateError }

/-- Callbacks that do nothing. -/
def cbTrivial : CbOracle := fun _ _ _ _ _ => []

/-- A freshly installed runtime: empty stack, empty backup queue, flag
clear, no microtasks, empty document. -/
def stFresh : RuntimeState := { installation := some ⟨[], [], false⟩ }

/-- A definition with only a connected callback, used by the drain
demonstration states. -/
def defnDemo : CEDefinition :=
  { name := "x-a", localName := "x-a", ctorId := 0, observedAttributes := [],
    hasConnected := true, hasDisconnected := false, hasAdopted := false,
    hasAttributeChanged := false, constructionStack := [] }

/-- Element 0's state in `stDrain`: one pending connected reaction. -/
def esDrain : ElementCEState :=
  { customElementDefinition := some 0,
    reactionQueue := [Reaction.callback 0 CallbackKind.connected []] }

/-- A mid-drain state: reaction stack empty, element 0 on the backup
queue with one pending connected reaction, processing flag set. -/
def stDrain : RuntimeState :=
  { installation := some ⟨[], [0], true⟩,
    elemState := [(0, esDrain)],
    definitions := [defnDemo] }

/-- A callback body that enqueues an upgrade reaction for element 1 —
mid-drain, this grows the live backup queue. -/
def cbEnqueueSecond : CbOracle := fun _ _ _ _ _ => [UserCmd.enqUp 1 0]

/-- A construction hook that yields element 1. -/
def envDrain : Env :=
  { elems := fun _ => {}, ctors := fun _ => {},
    hook := fun _ => Except.ok 1 }

/-- The drain pass over `stDrain`. -/
def drainRun : Option (RuntimeState × Option CEError × Nat) :=
  invokeReactionsLoop envDrain cbEnqueueSecond 20 QueueSrc.liveBackup 0 stDrain

def drainFinalState : RuntimeState := ((drainRun.map fun p => p.1).getD stDrain)

def drainFinalIndex : Nat := ((drainRun.map fun p => p.2.2).getD 0)

/-- Element 0's state in the uninstalled demonstration. -/
def esNoInstall : ElementCEState := { customElementDefinition := some 0 }

/-- An uninstalled runtime holding element 0 and one definition. -/
def stNoInstall : RuntimeState :=
  { installation := none, elemState := [(0, esNoInstall)],
    definitions := [defnDemo] }

/-- The name `a-𐀀`: the letter a, a hyphen, then U+10000 (the first
supplementary-plane code point). -/
def nameSupplementary : String := String.mk ['a', '-', Char.ofNat 0x10000]

/-- An environment whose constructor 0 fails the
`constructor === constructor.prototype.constructor` check and whose
constructor 1 passes it. -/
def envC7 : Env :=
  { elems := fun _ => {},
    ctors := fun c => if c = 0 then { protoCtorIsSelf := false } else {},
    hook := fun _ => Except.error CEError.invalidStateError }

/-- A fresh install whose definition-running flag is set (as during a
re-entrant `define`). -/
def stRunning : RuntimeState :=
  { installation := some ⟨[], [], false⟩, elementDefinitionIsRunning := true }

/-- An environment whose construction hook always throws. -/
def envC1 : Env :=
  { elems := fun _ => {}, ctors := fun _ => {},
    hook := fun _ => Except.error (CEError.userError 7) }

/-- Element 0's pre-upgrade state in the C1 demonstration. -/
def esC1 : ElementCEState := { customElementDefinition := some 0 }

/-- A fresh install with element 0 pending upgrade against definition 0. -/
def stC1 : RuntimeState :=
  { installation := some ⟨[], [], false⟩, elemState := [(0, esC1)],
    definitions := [defnDemo] }

/-- A callback oracle that always throws. -/
def cbThrow : CbOracle := fun _ _ _ _ _ => [UserCmd.throwErr (CEError.userError 3)]

/-! ## C2: reactions enqueued by an upgrade, and their invocation order -/

def isCallbackReaction : Reaction → Bool
  | .callback _ _ _ => true
  | .upgrade _ => false

/-- The reaction `upgradeElement` enqueues for one present attribute:
arguments `[localName, null, value, namespaceURI]`. -/
def attrReaction (di : Nat) (a : String × String × Option String) : Reaction :=
  Reaction.callback di CallbackKind.attributeChanged
    [some a.1, none, some a.2.1, a.2.2]

/-- A definition observing attribute "x" with both an
`attributeChangedCallback` and a `connectedCallback`. -/
def defnC2 : CEDefinition :=
  { name := "x-a", localName := "x-a", ctorId := 0,
    observedAttributes := ["x"],
    hasConnected := true, hasDisconnected := false, hasAdopted := false,
    hasAttributeChanged := true, constructionStack := [] }

/-- An environment whose element 0 carries one attribute `x="1"` and is
attached to a live tree; the construction hook yields element 0. -/
def envC2 : Env :=
  { elems := fun _ =>
      { attributes := [("x", "1", none)], isConnected := true },
    ctors := fun _ => {},
    hook := fun _ => Except.ok 0 }

/-- Element 0's pre-upgrade state in the C2 demonstration. -/
def esC2 : ElementCEState := { customElementDefinition := some 0 }

/-- A fresh install with element 0 pending upgrade against `defnC2`. -/
def stC2 : RuntimeState :=
  { installation := some ⟨[], [], false⟩, elemState := [(0, esC2)],
    definitions := [defnC2] }

/-- A definition with no lifecycle callbacks at all. -/
def defnC2bad : CEDefinition :=
  { name := "x-a", localName := "x-a", ctorId := 0,
    observedAttributes := [],
    hasConnected := false, hasDisconnected := false, hasAdopted := false,
    hasAttributeChanged := false, constructionStack := [] }

/-- A state pairing element 0 (one attribute, attached to a live tree)
with the callback-free definition. -/
def stC2bad : RuntimeState :=
  { installation := some ⟨[], [], false⟩, elemState := [(0, esC2)],
    definitions := [defnC2bad] }

/-! ## Theorems -/

theorem lookupElemList_setElemList (l : List (Nat × ElementCEState)) (e e' : Nat)
    (s : ElementCEState) :
    lookupElemList (setElemList l e s) e' =
      if e' = e then some s else lookupElemList l e' := by
  induction l with
  | nil =>
      by_cases h : e' = e
      · subst h; simp [setElemList, lookupElemList]
      · simp [setElemList, lookupElemList, h, Ne.symm h]
  | cons kv rest ih =>
      obtain ⟨k, v⟩ := kv
      by_cases hk : k = e
      · subst hk
        by_cases h : e' = k
        · subst h; simp [setElemList, lookupElemList]
        · simp [setElemList, lookupElemList, h, Ne.symm h]
      · by_cases h : e' = k
        · subst h; simp [setElemList, lookupElemList, hk, Ne.symm hk]
        · simp [setElemList, lookupElemList, hk, h, Ne.symm h, ih]

theorem lookupElem_setElem (st : RuntimeState) (e e' : Nat) (s : ElementCEState) :
    lookupElem (setElem st e s) e' =
      if e' = e then some s else lookupElem st e' := by
  simp [lookupElem, setElem, lookupElemList_setElemList]

theorem Preserves.rfl (st : RuntimeState) : Preserves st st :=
  ⟨⟨[], by simp⟩, fun _ h => h, ⟨[], by simp⟩, ⟨[], by simp⟩,
   fun h => ⟨h, Eq.refl _⟩, id⟩

theorem Preserves.trans {a b c : RuntimeState} (h1 : Preserves a b)
    (h2 : Preserves b c) : Preserves a c := by
  obtain ⟨⟨t1, hb1⟩, he1, ⟨r1, hr1⟩, ⟨l1, hl1⟩, hd1, hi1⟩ := h1
  obtain ⟨⟨t2, hb2⟩, he2, ⟨r2, hr2⟩, ⟨l2, hl2⟩, hd2, hi2⟩ := h2
  refine ⟨⟨t1 ++ t2, ?_⟩, fun e h => he2 e (he1 e h), ⟨r1 ++ r2, ?_⟩,
    ⟨l1 ++ l2, ?_⟩, ?_, fun h => hi2 (hi1 h)⟩
  · rw [hb2, hb1, List.append_assoc]
  · rw [hr2, hr1, List.append_assoc]
  · rw [hl2, hl1, List.append_assoc]
  · intro h
    obtain ⟨hf1, hc1⟩ := hd1 h
    obtain ⟨hf2, hc2⟩ := hd2 hf1
    exact ⟨hf2, hc2.trans hc1⟩

/-- A state differing only in fields that `Preserves` does not watch
(element store contents for existing keys aside) is preserved. -/
theorem preserves_setElem (st : RuntimeState) (e : Nat) (s : ElementCEState) :
    Preserves st (setElem st e s) := by
  refine ⟨⟨[], by simp [backupOf, setElem]⟩, ?_, ⟨[], by simp [setElem]⟩,
    ⟨[], by simp [setElem]⟩, ?_, ?_⟩
  · intro e' h
    rw [lookupElem_setElem]
    by_cases he : e' = e <;> simp [he, h]
  · intro h
    exact ⟨by simp [processingFlag, setElem] at h ⊢; exact h,
      by simp [drainCount, setElem]⟩
  · intro h
    simpa [Inv, drainCount, processingFlag, setElem] using h

theorem preserves_modifyDef (st : RuntimeState) (di : Nat)
    (f : CEDefinition → CEDefinition) : Preserves st (modifyDef st di f) := by
  refine ⟨⟨[], by simp [backupOf, modifyDef]⟩, ?_, ⟨[], by simp [modifyDef]⟩,
    ⟨[], by simp [modifyDef]⟩, ?_, ?_⟩
  · intro e' h
    simpa [lookupElem, modifyDef] using h
  · intro h
    exact ⟨by simpa [processingFlag, modifyDef] using h,
      by simp [drainCount, modifyDef]⟩
  · intro h
    simpa [Inv, drainCount, processingFlag, modifyDef] using h

theorem preserves_enqueueElementOnAppropriateElementQueue (e : Nat)
    (st : RuntimeState) :
    Preserves st (enqueueElementOnAppropriateElementQueue e st) := by
  cases hinst : st.installation with
  | none =>
      simp only [enqueueElementOnAppropriateElementQueue, hinst]
      exact Preserves.rfl st
  | some inst =>
      cases hstack : inst.customElementsReactionStack with
      | nil =>
          cases hflag : inst.processingBackupElementQueue with
          | true =>
              refine ⟨⟨[e], ?_⟩, ?_, ⟨[], ?_⟩, ⟨[], ?_⟩, ?_, ?_⟩
              · simp [enqueueElementOnAppropriateElementQueue, backupOf,
                  hinst, hstack, hflag]
              · intro e' h
                simpa [enqueueElementOnAppropriateElementQueue, lookupElem,
                  hinst, hstack, hflag] using h
              · simp [enqueueElementOnAppropriateElementQueue, hinst, hstack,
                  hflag]
              · simp [enqueueElementOnAppropriateElementQueue, hinst, hstack,
                  hflag]
              · intro _
                constructor
                · simp [enqueueElementOnAppropriateElementQueue, processingFlag,
                    hinst, hstack, hflag]
                · simp [enqueueElementOnAppropriateElementQueue, drainCount,
                    hinst, hstack, hflag]
              · intro h
                simpa [Inv, Inv, drainCount, processingFlag,
                  enqueueElementOnAppropriateElementQueue, hinst, hstack,
                  hflag] using h
          | false =>
              refine ⟨⟨[e], ?_⟩, ?_, ⟨[], ?_⟩, ⟨[], ?_⟩, ?_, ?_⟩
              · simp [enqueueElementOnAppropriateElementQueue, backupOf,
                  hinst, hstack, hflag]
              · intro e' h
                simpa [enqueueElementOnAppropriateElementQueue, lookupElem,
                  hinst, hstack, hflag] using h
              · simp [enqueueElementOnAppropriateElementQueue, hinst, hstack,
                  hflag]
              · simp [enqueueElementOnAppropriateElementQueue, hinst, hstack,
                  hflag]
              · intro h
                rw [processingFlag, hinst] at h
                exact absurd h (by simp [hflag])
              · intro h
                obtain ⟨h1, h2⟩ := h
                have hz : st.microtasks.countP isDrainTask = 0 :=
                  h2 (by rw [processingFlag, hinst]; exact hflag)
                constructor
                · simp [enqueueElementOnAppropriateElementQueue, drainCount,
                    hinst, hstack, hflag, List.countP_append, hz, isDrainTask]
                · intro hf
                  rw [processingFlag] at hf
                  simp [enqueueElementOnAppropriateElementQueue, hinst, hstack,
                    hflag] at hf
      | cons top rest =>
          refine ⟨⟨[], ?_⟩, ?_, ⟨[], ?_⟩, ⟨[], ?_⟩, ?_, ?_⟩
          · simp [enqueueElementOnAppropriateElementQueue, backupOf, hinst,
              hstack]
          · intro e' h
            simpa [enqueueElementOnAppropriateElementQueue, lookupElem, hinst,
              hstack] using h
          · simp [enqueueElementOnAppropriateElementQueue, hinst, hstack]
          · simp [enqueueElementOnAppropriateElementQueue, hinst, hstack]
          · intro h
            simp only [processingFlag, hinst] at h
            constructor
            · simp [enqueueElementOnAppropriateElementQueue, processingFlag,
                hinst, hstack, h]
            · simp [enqueueElementOnAppropriateElementQueue, drainCount, hinst,
                hstack]
          · intro h
            simpa [Inv, drainCount, processingFlag,
              enqueueElementOnAppropriateElementQueue, hinst, hstack] using h

/-- Preservation for any state change that keeps the installation, the
element store and the drain-task count intact and only appends to the
sink and the log. -/
theorem Preserves.of_untouched {st st' : RuntimeState}
    (h1 : st'.installation = st.installation)
    (h2 : st'.elemState = st.elemState)
    (h3 : ∃ t, st'.reportedErrors = st.reportedErrors ++ t)
    (h4 : ∃ t, st'.invocationLog = st.invocationLog ++ t)
    (h5 : drainCount st' = drainCount st) : Preserves st st' := by
  have hb : backupOf st' = backupOf st := by simp only [backupOf, h1]
  have hp : processingFlag st' = processingFlag st := by
    simp only [processingFlag, h1]
  refine ⟨⟨[], by simp [hb]⟩, ?_, h3, h4, ?_, ?_⟩
  · intro e h
    simpa [lookupElem, h2] using h
  · intro h
    exact ⟨by rw [hp, h], h5⟩
  · intro h
    simpa only [Inv, h5, hp] using h

/-- Preservation for a pure change of the reaction-stack field. -/
theorem preserves_setStack (st : RuntimeState) (inst : Installation)
    (h : st.installation = some inst) (x : List (List Nat)) :
    Preserves st
      { st with installation := some { inst with
          customElementsReactionStack := x } } := by
  refine ⟨⟨[], ?_⟩, ?_, ⟨[], by simp⟩, ⟨[], by simp⟩, ?_, ?_⟩
  · simp [backupOf, h]
  · intro e he
    simpa [lookupElem] using he
  · intro hf
    simp only [processingFlag, h] at hf
    exact ⟨by simp [processingFlag, hf], by simp [drainCount]⟩
  · intro hi
    simpa [Inv, drainCount, processingFlag, h] using hi

theorem preserves_reportError (err : CEError) (st : RuntimeState) :
    Preserves st (reportError err st) :=
  Preserves.of_untouched (by simp [reportError]) (by simp [reportError])
    ⟨[err], by simp [reportError]⟩ ⟨[], by simp [reportError]⟩
    (by simp [drainCount, reportError])

theorem preserves_pushLog (st : RuntimeState) (e : Nat) (r : Reaction) :
    Preserves st (pushLog st e r) :=
  Preserves.of_untouched (by simp [pushLog]) (by simp [pushLog])
    ⟨[], by simp [pushLog]⟩ ⟨[(e, r)], by simp [pushLog]⟩
    (by simp [drainCount, pushLog])

theorem preserves_enqueueCallbackReaction (e : Nat) (k : CallbackKind)
    (args : List (Option String)) (st : RuntimeState) :
    Preserves st (enqueueCallbackReaction e k args st).1 := by
  unfold enqueueCallbackReaction
  split
  · exact Preserves.rfl st
  · split
    · exact Preserves.rfl st
    · split
      · exact Preserves.rfl st
      · split
        · exact Preserves.rfl st
        · split
          · exact Preserves.rfl st
          · exact (preserves_setElem st e _).trans
              (preserves_enqueueElementOnAppropriateElementQueue e _)

theorem preserves_upgradeFailureTransition (e : Nat) (st : RuntimeState) :
    Preserves st (upgradeFailureTransition e st) := by
  unfold upgradeFailureTransition
  split
  · exact preserves_setElem st e _
  · exact Preserves.rfl st

theorem preserves_upgradeSuccessTransition (e : Nat) (st : RuntimeState) :
    Preserves st (upgradeSuccessTransition e st).1 := by
  unfold upgradeSuccessTransition
  split
  · exact preserves_setElem st e _
  · exact Preserves.rfl st

theorem preserves_enqueueUpgradeReaction (e di : Nat) (st : RuntimeState) :
    Preserves st (enqueueUpgradeReaction e di st) :=
  (preserves_setElem st e _).trans
    (preserves_enqueueElementOnAppropriateElementQueue e _)

theorem preserves_enqueueAttributeReactions (e : Nat)
    (attrs : List (String × String × Option String)) (st : RuntimeState) :
    Preserves st (enqueueAttributeReactions e attrs st).1 := by
  induction attrs generalizing st with
  | nil => exact Preserves.rfl st
  | cons a rest ih =>
      have h1 := preserves_enqueueCallbackReaction e
        CallbackKind.attributeChanged [some a.1, none, some a.2.1, a.2.2] st
      unfold enqueueAttributeReactions
      cases hres : enqueueCallbackReaction e CallbackKind.attributeChanged
          [some a.1, none, some a.2.1, a.2.2] st with
      | mk st1 r =>
          rw [hres] at h1
          cases r with
          | none => exact h1.trans (ih st1)
          | some err => exact h1

theorem preserves_upgradeEnqueuePhase (env : Env) (e : Nat) (st : RuntimeState) :
    Preserves st (upgradeEnqueuePhase env e st).state := by
  have h1 := preserves_enqueueAttributeReactions e (env.elems e).attributes st
  unfold upgradeEnqueuePhase
  cases hres : enqueueAttributeReactions e (env.elems e).attributes st with
  | mk st1 r =>
      rw [hres] at h1
      cases r with
      | some err => exact h1
      | none =>
          by_cases hc : (env.elems e).isConnected
          · have h2 := preserves_enqueueCallbackReaction e
              CallbackKind.connected [] st1
            simp only [hc, if_true]
            cases hres2 : enqueueCallbackReaction e CallbackKind.connected
                [] st1 with
            | mk st2 r2 =>
                rw [hres2] at h2
                cases r2 with
                | some err => exact h1.trans h2
                | none => exact h1.trans h2
          · simp only [hc, if_false]
            exact h1

theorem preserves_upgradeElementPre (env : Env) (e di : Nat)
    (st : RuntimeState) : Preserves st (upgradeElementPre env e di st).state := by
  unfold upgradeElementPre
  cases hl : lookupElem st e with
  | none =>
      exact (preserves_setElem st e _).trans (preserves_upgradeEnqueuePhase env e _)
  | some es =>
      by_cases hs : shouldNotUpgrade (some es)
      · simp only [hs, if_true]
        exact Preserves.rfl st
      · simp only [hs, if_false]
        exact preserves_upgradeEnqueuePhase env e st

theorem preserves_upgradeRunHook (env : Env) (e di : Nat)
    (st : RuntimeState) : Preserves st (upgradeRunHook env e di st).1 := by
  unfold upgradeRunHook
  split
  · exact (preserves_upgradeFailureTransition e st).trans
      (preserves_modifyDef _ di _)
  · exact (preserves_modifyDef st di _).trans
      (preserves_upgradeSuccessTransition e _)

theorem preserves_upgradeConstructPhase (env : Env) (e di : Nat)
    (st : RuntimeState) : Preserves st (upgradeConstructPhase env e di st).1 :=
  (preserves_modifyDef st di _).trans
    (preserves_upgradeRunHook env e di (pushConstructionStack di e st))

theorem preserves_upgradeElement (env : Env) (e di : Nat) (st : RuntimeState) :
    Preserves st (upgradeElement env e di st).1 := by
  have h1 := preserves_upgradeElementPre env e di st
  unfold upgradeElement
  cases hres : upgradeElementPre env e di st with
  | earlyReturn st1 => rw [hres] at h1; exact h1
  | threw st1 err => rw [hres] at h1; exact h1
  | proceed st1 =>
      rw [hres] at h1
      exact h1.trans (preserves_upgradeConstructPhase env e di st1)

theorem preserves_interpretCmds (cmds : List UserCmd) (st : RuntimeState) :
    Preserves st (interpretCmds cmds st).1 := by
  induction cmds generalizing st with
  | nil => exact Preserves.rfl st
  | cons c rest ih =>
      cases c with
      | throwErr err =>
          simp only [interpretCmds]
          exact Preserves.rfl st
      | enqCb e k args =>
          simp only [interpretCmds]
          have h1 := preserves_enqueueCallbackReaction e k args st
          split
          · rename_i st1 err heq
            rw [heq] at h1
            exact h1
          · rename_i st1 heq
            rw [heq] at h1
            exact h1.trans (ih st1)
      | enqUp e di =>
          simp only [interpretCmds]
          exact (preserves_enqueueUpgradeReaction e di st).trans
            (ih (enqueueUpgradeReaction e di st))

theorem preserves_dispatchReaction (env : Env) (cb : CbOracle) (e : Nat)
    (r : Reaction) (st : RuntimeState) :
    Preserves st (dispatchReaction env cb e r st).1 := by
  unfold dispatchReaction
  cases r with
  | upgrade di => exact preserves_upgradeElement env e di st
  | callback di k args => exact preserves_interpretCmds _ st

theorem preserves_invokeOneReaction (env : Env) (cb : CbOracle) (e : Nat)
    (r : Reaction) (st : RuntimeState) :
    Preserves st (invokeOneReaction env cb e r st) := by
  have h0 := preserves_pushLog st e r
  have h1 := preserves_dispatchReaction env cb e r (pushLog st e r)
  unfold invokeOneReaction
  cases hres : dispatchReaction env cb e r (pushLog st e r) with
  | mk st1 rr =>
      rw [hres] at h1
      cases rr with
      | some err => exact h0.trans (h1.trans (preserves_reportError err st1))
      | none => exact h0.trans h1

theorem preserves_invokeElementReactions (env : Env) (cb : CbOracle) :
    ∀ fuel e st st' r, invokeElementReactions env cb fuel e st = some (st', r) →
    Preserves st st' := by
  intro fuel
  induction fuel with
  | zero =>
      intro e st st' r h
      simp [invokeElementReactions] at h
  | succ n ih =>
      intro e st st' r h
      rw [invokeElementReactions] at h
      split at h
      · simp only [Option.some.injEq, Prod.mk.injEq] at h
        rw [← h.1]
        exact Preserves.rfl st
      · split at h
        · simp only [Option.some.injEq, Prod.mk.injEq] at h
          rw [← h.1]
          exact Preserves.rfl st
        · rename_i es heq rr rest hq
          exact ((preserves_setElem st e _).trans
            (preserves_invokeOneReaction env cb e rr _)).trans (ih e _ st' r h)

theorem preserves_invokeReactionsLoop (env : Env) (cb : CbOracle) :
    ∀ fuel src i st st' r i',
    invokeReactionsLoop env cb fuel src i st = some (st', r, i') →
    Preserves st st' := by
  intro fuel
  induction fuel with
  | zero =>
      intro src i st st' r i' h
      simp [invokeReactionsLoop] at h
  | succ n ih =>
      intro src i st st' r i' h
      rw [invokeReactionsLoop] at h
      split at h
      · split at h
        · exact absurd h (by simp)
        · rename_i x st1 r1 hres
          simp only [Option.some.injEq, Prod.mk.injEq] at h
          rw [← h.1]
          exact preserves_invokeElementReactions env cb n _ st st1 _ hres
        · rename_i x st1 hres
          exact (preserves_invokeElementReactions env cb n _ st st1 _
            hres).trans (ih src (i + 1) st1 st' r i' h)
      · simp only [Option.some.injEq, Prod.mk.injEq] at h
        rw [← h.1]
        exact Preserves.rfl st

theorem preserves_invokeReactions (env : Env) (cb : CbOracle) (fuel : Nat)
    (src : QueueSrc) (st st' : RuntimeState) (r : Option CEError)
    (h : invokeReactions env cb fuel src st = some (st', r)) :
    Preserves st st' := by
  unfold invokeReactions at h
  cases hres : invokeReactionsLoop env cb fuel src 0 st with
  | none =>
      rw [hres] at h
      exact absurd h (by simp)
  | some p =>
      obtain ⟨st1, r1, i1⟩ := p
      rw [hres] at h
      simp only [Option.map_some', Option.some.injEq, Prod.mk.injEq] at h
      rw [← h.1]
      exact preserves_invokeReactionsLoop env cb fuel src 0 st st1 r1 i1 hres

theorem preserves_popAndInvoke (env : Env) (cb : CbOracle) (fuel : Nat)
    (st st' : RuntimeState) (r : Option CEError)
    (h : popAndInvoke env cb fuel st = some (st', r)) : Preserves st st' := by
  unfold popAndInvoke at h
  cases hinst : st.installation with
  | none =>
      rw [hinst] at h
      simp only [Option.some.injEq, Prod.mk.injEq] at h
      rw [← h.1]
      exact Preserves.rfl st
  | some inst =>
      rw [hinst] at h
      simp only [] at h
      cases hstack : inst.customElementsReactionStack with
      | nil =>
          rw [hstack] at h
          simp only [Option.some.injEq, Prod.mk.injEq] at h
          rw [← h.1]
          exact Preserves.rfl st
      | cons q rest =>
          rw [hstack] at h
          simp only [] at h
          exact (preserves_setStack st inst hinst rest).trans
            (preserves_invokeReactions env cb fuel _ _ st' r h)

theorem preserves_executeScopeBody (env : Env) (cb : CbOracle) (fuel : Nat)
    (p : RuntimeState × Option CEError) (st' : RuntimeState) (r : Option CEError)
    (h : executeScopeBody env cb fuel p = some (st', r)) : Preserves p.1 st' := by
  obtain ⟨ps, pr⟩ := p
  cases pr with
  | some err =>
      simp only [executeScopeBody, Option.some.injEq, Prod.mk.injEq] at h
      rw [← h.1]
      exact Preserves.rfl ps
  | none =>
      simp only [executeScopeBody] at h
      exact preserves_popAndInvoke env cb fuel ps st' r h

theorem preserves_executeCEReactions (env : Env) (cb : CbOracle) (fuel : Nat)
    (work : RuntimeState → RuntimeState × Option CEError)
    (hwork : ∀ s, Preserves s (work s).1)
    (st st' : RuntimeState) (r : Option CEError)
    (h : executeCEReactions env cb fuel work st = some (st', r)) :
    Preserves st st' := by
  unfold executeCEReactions at h
  split at h
  · simp only [Option.some.injEq] at h
    have hw := hwork st
    rw [h] at hw
    exact hw
  · rename_i inst hinst
    exact ((preserves_setStack st inst hinst _).trans (hwork _)).trans
      (preserves_executeScopeBody env cb fuel _ st' r h)

theorem preserves_sweepUpgrades (env : Env) (localName : String)
    (extensionOf : Option String) (di : Nat) (nodes : List Nat)
    (st : RuntimeState) :
    Preserves st (sweepUpgrades env localName extensionOf di nodes st).1 := by
  induction nodes generalizing st with
  | nil => exact Preserves.rfl st
  | cons node rest ih =>
      unfold sweepUpgrades
      split
      · cases extensionOf with
        | some ext =>
            cases hl : lookupElem st node with
            | none => exact Preserves.rfl st
            | some ns =>
                simp only []
                split
                · exact ih st
                · exact (preserves_enqueueUpgradeReaction node di st).trans
                    (ih _)
        | none =>
            exact (preserves_enqueueUpgradeReaction node di st).trans (ih _)
      · exact ih st

theorem preserves_runningFlag (st : RuntimeState) (b : Bool) :
    Preserves st { st with elementDefinitionIsRunning := b } :=
  Preserves.of_untouched (by simp) (by simp) ⟨[], by simp⟩ ⟨[], by simp⟩
    (by simp [drainCount])

theorem preserves_defineAppendDefinition (d : CEDefinition)
    (st : RuntimeState) : Preserves st (defineAppendDefinition d st) :=
  Preserves.of_untouched (by simp [defineAppendDefinition])
    (by simp [defineAppendDefinition]) ⟨[], by simp [defineAppendDefinition]⟩
    ⟨[], by simp [defineAppendDefinition]⟩
    (by simp [drainCount, defineAppendDefinition])

theorem preserves_defineSweep (env : Env) (localName : String)
    (extensionOf : Option String) (di : Nat) (st : RuntimeState) :
    Preserves st (defineSweep env localName extensionOf di st).1 := by
  unfold defineSweep
  split
  · exact Preserves.rfl st
  · exact preserves_sweepUpgrades env localName extensionOf di _ st

theorem preserves_defineSchedulePromise (name : String) (st : RuntimeState) :
    Preserves st (defineSchedulePromise name st) := by
  unfold defineSchedulePromise
  split
  · exact Preserves.of_untouched (by simp) (by simp) ⟨[], by simp⟩
      ⟨[], by simp⟩
      (by simp [drainCount, List.countP_append, isDrainTask])
  · exact Preserves.rfl st

theorem preserves_defineAfterSweep (name : String)
    (p : RuntimeState × Option CEError) :
    Preserves p.1 (defineAfterSweep name p).1 := by
  obtain ⟨ps, pr⟩ := p
  cases pr with
  | some err => exact Preserves.rfl ps
  | none =>
      simp only [defineAfterSweep]
      exact preserves_defineSchedulePromise name ps

theorem preserves_defineFinish (env : Env) (name : String) (ctorId : Nat)
    (localName : String) (extensionOf : Option String) (st : RuntimeState) :
    Preserves st (defineFinish env name ctorId localName extensionOf st).1 := by
  unfold defineFinish
  split
  · exact Preserves.rfl st
  · exact ((preserves_defineAppendDefinition _ st).trans
      ((preserves_defineSweep env localName extensionOf _ _).trans
        (preserves_defineAfterSweep name _)))

theorem preserves_defineRest (env : Env) (name : String) (ctorId : Nat)
    (localName : String) (extensionOf : Option String) (st : RuntimeState) :
    Preserves st (defineRest env name ctorId localName extensionOf st).1 := by
  unfold defineRest
  split
  · exact Preserves.rfl st
  · exact (preserves_runningFlag st false).trans
      (preserves_defineFinish env name ctorId localName extensionOf _)

theorem preserves_defineInner (env : Env) (name : String) (ctorId : Nat)
    (opts : Option String) (st : RuntimeState) :
    Preserves st (defineInner env name ctorId opts st).1 := by
  unfold defineInner
  split
  · exact Preserves.rfl st
  · split
    · exact Preserves.rfl st
    · cases opts with
      | some ext =>
          try simp only []
          split
          · exact Preserves.rfl st
          · exact Preserves.rfl st
      | none =>
          try simp only []
          exact preserves_defineRest env name ctorId name none st

theorem preserves_whenDefinedOp (name : String) (st : RuntimeState) :
    Preserves st (whenDefinedOp name st).1 := by
  unfold whenDefinedOp
  split
  · exact Preserves.rfl st
  · split
    · exact Preserves.rfl st
    · split
      · exact Preserves.rfl st
      · exact Preserves.of_untouched (by simp) (by simp) ⟨[], by simp⟩
          ⟨[], by simp⟩ (by simp [drainCount])
      · exact Preserves.of_untouched (by simp) (by simp) ⟨[], by simp⟩
          ⟨[], by simp⟩ (by simp [drainCount])

theorem preserves_tryToUpgradeLookup (env : Env) (e : Nat)
    (isValue : Option String) (st : RuntimeState) :
    Preserves st (tryToUpgradeLookup env e isValue st) := by
  unfold tryToUpgradeLookup
  split
  · exact preserves_enqueueUpgradeReaction e _ st
  · exact Preserves.rfl st

theorem preserves_tryToUpgradeElement (env : Env) (e : Nat)
    (st : RuntimeState) : Preserves st (tryToUpgradeElement env e st) := by
  unfold tryToUpgradeElement
  split
  · split
    · exact Preserves.rfl st
    · exact preserves_tryToUpgradeLookup env e _ st
  · exact preserves_tryToUpgradeLookup env e none st

theorem inv_of_CEInit {st : RuntimeState} (h : CEInit st) : Inv st := by
  obtain ⟨h1, h2⟩ := h
  constructor
  · simp [drainCount, h2]
  · intro _
    simp [drainCount, h2]

theorem processingFlag_withMicrotasks (st : RuntimeState)
    (m : List Microtask) :
    processingFlag { st with microtasks := m } = processingFlag st := Eq.refl _

theorem backupOf_withMicrotasks (st : RuntimeState) (m : List Microtask) :
    backupOf { st with microtasks := m } = backupOf st := Eq.refl _

theorem drainCount_withMicrotasks (st : RuntimeState) (m : List Microtask) :
    drainCount { st with microtasks := m } = m.countP isDrainTask := Eq.refl _

theorem backupOf_resolveWhenDefinedTask (name : String) (st : RuntimeState) :
    backupOf (resolveWhenDefinedTask name st) = backupOf st := Eq.refl _

theorem drainCount_resolveWhenDefinedTask (name : String) (st : RuntimeState) :
    drainCount (resolveWhenDefinedTask name st) = drainCount st := Eq.refl _

theorem processingFlag_resolveWhenDefinedTask (name : String)
    (st : RuntimeState) :
    processingFlag (resolveWhenDefinedTask name st) = processingFlag st :=
  Eq.refl _

theorem backupOf_clearProcessingFlag (st : RuntimeState) :
    backupOf (clearProcessingFlag st) = backupOf st := by
  unfold clearProcessingFlag
  cases h : st.installation with
  | none => exact Eq.refl _
  | some inst => simp [backupOf, h]

theorem drainCount_clearProcessingFlag (st : RuntimeState) :
    drainCount (clearProcessingFlag st) = drainCount st := by
  unfold clearProcessingFlag
  cases h : st.installation with
  | none => exact Eq.refl _
  | some inst => simp [drainCount]

theorem inv_runMicrotask (env : Env) (cb : CbOracle) (fuel : Nat)
    (t : Microtask) (st st' : RuntimeState) (r : Option CEError)
    (hcnt : drainCount st + (if isDrainTask t then 1 else 0) ≤ 1)
    (hflag : isDrainTask t = true → processingFlag st = true)
    (hzero : processingFlag st = false → drainCount st = 0)
    (h : runMicrotask env cb fuel t st = some (st', r)) : Inv st' := by
  cases t with
  | resolveWhenDefined name =>
      simp only [runMicrotask, Option.some.injEq, Prod.mk.injEq] at h
      rw [← h.1]
      simp [isDrainTask] at hcnt
      constructor
      · rw [drainCount_resolveWhenDefinedTask]
        omega
      · intro hf
        rw [drainCount_resolveWhenDefinedTask]
        rw [processingFlag_resolveWhenDefinedTask] at hf
        exact hzero hf
  | drainBackup =>
      simp [isDrainTask] at hcnt hflag
      have hcount1 : drainCount st = 0 := by omega
      have hflag1 : processingFlag st = true := hflag
      simp only [runMicrotask] at h
      cases hr : invokeReactions env cb fuel QueueSrc.liveBackup st with
      | none =>
          rw [hr] at h
          exact absurd h (by simp)
      | some p =>
          obtain ⟨st2, r2⟩ := p
          rw [hr] at h
          have hpres := preserves_invokeReactions env cb fuel
            QueueSrc.liveBackup st st2 r2 hr
          obtain ⟨hf2, hc2⟩ := hpres.drainFrame hflag1
          have hcount2 : drainCount st2 = 0 := by rw [hc2]; exact hcount1
          cases r2 with
          | some err =>
              simp only [Option.some.injEq, Prod.mk.injEq] at h
              rw [← h.1]
              exact ⟨by omega, fun _ => hcount2⟩
          | none =>
              simp only [Option.some.injEq, Prod.mk.injEq] at h
              rw [← h.1]
              rw [Inv, drainCount_clearProcessingFlag]
              exact ⟨by omega, fun _ => hcount2⟩

theorem inv_runMicrotaskHead (env : Env) (cb : CbOracle) (fuel : Nat)
    (st st' : RuntimeState) (r : Option CEError) (hinv : Inv st)
    (h : runMicrotaskHead env cb fuel st = some (st', r)) : Inv st' := by
  unfold runMicrotaskHead at h
  cases hm : st.microtasks with
  | nil =>
      rw [hm] at h
      simp only [Option.some.injEq, Prod.mk.injEq] at h
      rw [← h.1]
      exact hinv
  | cons t rest =>
      rw [hm] at h
      simp only [] at h
      obtain ⟨h1, h2⟩ := hinv
      rw [drainCount, hm, List.countP_cons] at h1 h2
      refine inv_runMicrotask env cb fuel t _ st' r ?_ ?_ ?_ h
      · rw [drainCount_withMicrotasks]
        exact h1
      · intro hd
        rw [processingFlag_withMicrotasks]
        by_contra hf
        have h0 := h2 (Bool.eq_false_iff.mpr hf)
        rw [hd] at h0
        simp at h0
      · intro hf
        rw [processingFlag_withMicrotasks] at hf
        rw [drainCount_withMicrotasks]
        have h0 := h2 hf
        omega

theorem backup_runMicrotask (env : Env) (cb : CbOracle) (fuel : Nat)
    (t : Microtask) (st st' : RuntimeState) (r : Option CEError)
    (h : runMicrotask env cb fuel t st = some (st', r)) :
    ∃ tail, backupOf st' = backupOf st ++ tail := by
  cases t with
  | resolveWhenDefined name =>
      simp only [runMicrotask, Option.some.injEq, Prod.mk.injEq] at h
      rw [← h.1]
      exact ⟨[], by rw [backupOf_resolveWhenDefinedTask, List.append_nil]⟩
  | drainBackup =>
      simp only [runMicrotask] at h
      cases hr : invokeReactions env cb fuel QueueSrc.liveBackup st with
      | none =>
          rw [hr] at h
          exact absurd h (by simp)
      | some p =>
          obtain ⟨st2, r2⟩ := p
          rw [hr] at h
          have hpres := preserves_invokeReactions env cb fuel
            QueueSrc.liveBackup st st2 r2 hr
          obtain ⟨t2, ht2⟩ := hpres.backup
          cases r2 with
          | some err =>
              simp only [Option.some.injEq, Prod.mk.injEq] at h
              rw [← h.1]
              exact ⟨t2, ht2⟩
          | none =>
              simp only [Option.some.injEq, Prod.mk.injEq] at h
              rw [← h.1]
              exact ⟨t2, by rw [backupOf_clearProcessingFlag]; exact ht2⟩

theorem backup_runMicrotaskHead (env : Env) (cb : CbOracle) (fuel : Nat)
    (st st' : RuntimeState) (r : Option CEError)
    (h : runMicrotaskHead env cb fuel st = some (st', r)) :
    ∃ t, backupOf st' = backupOf st ++ t := by
  unfold runMicrotaskHead at h
  cases hm : st.microtasks with
  | nil =>
      rw [hm] at h
      simp only [Option.some.injEq, Prod.mk.injEq] at h
      rw [← h.1]
      exact ⟨[], by simp⟩
  | cons t rest =>
      rw [hm] at h
      simp only [] at h
      have := backup_runMicrotask env cb fuel t _ st' r h
      rwa [backupOf_withMicrotasks] at this

theorem inv_step (env : Env) (cb : CbOracle) (st st' : RuntimeState)
    (h : Step env cb st st') (hinv : Inv st) : Inv st' := by
  cases h with
  | enqCb e k args st st' r hh =>
      have hp := (preserves_enqueueCallbackReaction e k args st).inv hinv
      rw [hh] at hp
      exact hp
  | enqUp e di st => exact (preserves_enqueueUpgradeReaction e di st).inv hinv
  | tryUp e st => exact (preserves_tryToUpgradeElement env e st).inv hinv
  | defineS fuel name ctorId opts st st' r hh =>
      exact (preserves_executeCEReactions env cb fuel _
        (fun s => preserves_defineInner env name ctorId opts s)
        st st' r hh).inv hinv
  | whenDef name st st' r hh =>
      have hp := (preserves_whenDefinedOp name st).inv hinv
      rw [hh] at hp
      exact hp
  | scope fuel cmds st st' r hh =>
      exact (preserves_executeCEReactions env cb fuel _
        (fun s => preserves_interpretCmds cmds s) st st' r hh).inv hinv
  | micro fuel st st' r hh =>
      exact inv_runMicrotaskHead env cb fuel st st' r hinv hh

theorem backup_step (env : Env) (cb : CbOracle) (st st' : RuntimeState)
    (h : Step env cb st st') : ∃ t, backupOf st' = backupOf st ++ t := by
  cases h with
  | enqCb e k args st st' r hh =>
      have hp := (preserves_enqueueCallbackReaction e k args st).backup
      rw [hh] at hp
      exact hp
  | enqUp e di st => exact (preserves_enqueueUpgradeReaction e di st).backup
  | tryUp e st => exact (preserves_tryToUpgradeElement env e st).backup
  | defineS fuel name ctorId opts st st' r hh =>
      exact (preserves_executeCEReactions env cb fuel _
        (fun s => preserves_defineInner env name ctorId opts s)
        st st' r hh).backup
  | whenDef name st st' r hh =>
      have hp := (preserves_whenDefinedOp name st).backup
      rw [hh] at hp
      exact hp
  | scope fuel cmds st st' r hh =>
      exact (preserves_executeCEReactions env cb fuel _
        (fun s => preserves_interpretCmds cmds s) st st' r hh).backup
  | micro fuel st st' r hh =>
      exact backup_runMicrotaskHead env cb fuel st st' r hh

theorem inv_reachable (env : Env) (cb : CbOracle) (st₀ st : RuntimeState)
    (h0 : CEInit st₀) (h : Reachable env cb st₀ st) : Inv st := by
  induction h with
  | refl => exact inv_of_CEInit h0
  | tail _ hstep ih => exact inv_step env cb _ _ hstep ih

/-! ## Length monotonicity of the live backup queue, and the drain loop -/

theorem queueOf_liveBackup (st : RuntimeState) :
    queueOf QueueSrc.liveBackup st = backupOf st := Eq.refl _

theorem backup_length_mono {st st' : RuntimeState}
    (h : ∃ t, backupOf st' = backupOf st ++ t) :
    (backupOf st).length ≤ (backupOf st').length := by
  obtain ⟨t, ht⟩ := h
  rw [ht]
  simp

/-- The live-mode drain loop, when it completes without an escaping
error, exits with its index equal to the length of the backup queue *as
it stands at exit*: every element appended to the backup queue during
the pass, by reactions the pass itself invoked, has been visited. -/
theorem invokeReactionsLoop_live_final (env : Env) (cb : CbOracle) :
    ∀ fuel i st st' i',
    invokeReactionsLoop env cb fuel QueueSrc.liveBackup i st =
      some (st', none, i') →
    i ≤ (backupOf st).length → i' = (backupOf st').length := by
  intro fuel
  induction fuel with
  | zero =>
      intro i st st' i' h _
      simp [invokeReactionsLoop] at h
  | succ n ih =>
      intro i st st' i' h hi
      rw [invokeReactionsLoop] at h
      split at h
      · rename_i hlt
        split at h
        · exact absurd h (by simp)
        · rename_i x st1 r1 hres
          simp only [Option.some.injEq, Prod.mk.injEq] at h
          exact absurd h.2.1 (by simp)
        · rename_i x st1 hres
          have hpres := preserves_invokeElementReactions env cb n _ st st1 _
            hres
          have hlen := backup_length_mono hpres.backup
          rw [queueOf_liveBackup] at hlt
          exact ih (i + 1) st1 st' i' h (by omega)
      · rename_i hnlt
        rw [queueOf_liveBackup] at hnlt
        simp only [Option.some.injEq, Prod.mk.injEq] at h
        obtain ⟨h1, _, h3⟩ := h
        rw [← h1, ← h3]
        omega

/-- C4: while the element queue stack is empty, enqueues go to the
backup element queue and at most one deferred drain task is ever pending
— an enqueue that finds the processing flag set schedules nothing — and
the drain loop re-reads the live queue bounds each iteration, so when it
completes its final index equals the length of the backup queue as it
stands at exit: elements appended mid-drain were processed in the same
pass. -/
theorem backupQueue_singleFlight_and_liveDrain :
    (∀ (env : Env) (cb : CbOracle) (st₀ st : RuntimeState), CEInit st₀ →
        Reachable env cb st₀ st → drainCount st ≤ 1) ∧
    (∀ (st : RuntimeState) (e : Nat), processingFlag st = true →
        (enqueueElementOnAppropriateElementQueue e st).microtasks =
          st.microtasks) ∧
    (∀ (env : Env) (cb : CbOracle) (fuel i : Nat) (st st' : RuntimeState)
        (i' : Nat),
        invokeReactionsLoop env cb fuel QueueSrc.liveBackup i st =
          some (st', none, i') →
        i ≤ (backupOf st).length → i' = (backupOf st').length) := by
  refine ⟨?_, ?_, ?_⟩
  · intro env cb st₀ st h0 hreach
    exact (inv_reachable env cb st₀ st h0 hreach).1
  · intro st e hf
    unfold enqueueElementOnAppropriateElementQueue
    cases hinst : st.installation with
    | none => exact Eq.refl _
    | some inst =>
        simp only [processingFlag, hinst] at hf
        cases hstack : inst.customElementsReactionStack with
        | nil => simp [hstack, hf]
        | cons top rest => simp [hstack]
  · intro env cb fuel i st st' i' h hi
    exact invokeReactionsLoop_live_final env cb fuel i st st' i' h hi

/-- Witness for C4 at concrete inputs: the invariant at a fresh install,
an enqueue under a set flag scheduling nothing, and a concrete drain in
which element 0's connected callback enqueues element 1 onto the live
backup queue and the pass still visits it (final index 2 = final queue
length 2). -/
theorem backupQueue_singleFlight_and_liveDrain_witness :
    drainCount stFresh ≤ 1 ∧
    (enqueueElementOnAppropriateElementQueue 7 stDrain).microtasks =
      stDrain.microtasks ∧
    drainFinalIndex = (backupOf drainFinalState).length := by
  refine ⟨?_, ?_, ?_⟩
  · exact backupQueue_singleFlight_and_liveDrain.1 envTrivial cbTrivial
      stFresh stFresh ⟨by decide, by decide⟩ Relation.ReflTransGen.refl
  · exact backupQueue_singleFlight_and_liveDrain.2.1 stDrain 7 (by decide)
  · have hrun : drainRun = some (drainFinalState, none, drainFinalIndex) := by
      decide
    exact backupQueue_singleFlight_and_liveDrain.2.2 envDrain cbEnqueueSecond
      20 0 stDrain drainFinalState drainFinalIndex hrun (by decide)

/-- C9: the backup element queue is never emptied.  The invocation loop
never removes elements from the queue it is given (the backup queue it
drains only ever grows), the drain microtask does not clear or reassign
the backup queue after draining, and every public operation of the
runtime leaves the previous backup queue contents as a prefix — an
element once enqueued while the stack was empty stays in the backup
queue permanently. -/
theorem backupQueue_never_emptied :
    (∀ (env : Env) (cb : CbOracle) (fuel : Nat) (src : QueueSrc) (i : Nat)
        (st st' : RuntimeState) (r : Option CEError) (i' : Nat),
        invokeReactionsLoop env cb fuel src i st = some (st', r, i') →
        ∃ t, backupOf st' = backupOf st ++ t) ∧
    (∀ (env : Env) (cb : CbOracle) (fuel : Nat) (st st' : RuntimeState)
        (r : Option CEError),
        runMicrotaskHead env cb fuel st = some (st', r) →
        ∃ t, backupOf st' = backupOf st ++ t) ∧
    (∀ (env : Env) (cb : CbOracle) (st st' : RuntimeState),
        Step env cb st st' → ∃ t, backupOf st' = backupOf st ++ t) := by
  refine ⟨?_, ?_, ?_⟩
  · intro env cb fuel src i st st' r i' h
    exact (preserves_invokeReactionsLoop env cb fuel src i st st' r i' h).backup
  · intro env cb fuel st st' r h
    exact backup_runMicrotaskHead env cb fuel st st' r h
  · intro env cb st st' h
    exact backup_step env cb st st' h

/-- Witness for C9: a concrete drain over `stDrain` (which appends
element 1 mid-pass) keeps the original queue `[0]` as a prefix; the
drain microtask over a one-task state does too; and an enqueue step
extends the queue. -/
theorem backupQueue_never_emptied_witness :
    (∃ t, backupOf drainFinalState = backupOf stDrain ++ t) ∧
    (∃ t, backupOf (enqueueUpgradeReaction 3 0 stDrain) =
      backupOf stDrain ++ t) := by
  constructor
  · have hrun : drainRun = some (drainFinalState, none, drainFinalIndex) := by
      decide
    exact backupQueue_never_emptied.1 envDrain cbEnqueueSecond 20
      QueueSrc.liveBackup 0 stDrain drainFinalState none drainFinalIndex hrun
  · exact backupQueue_never_emptied.2.2 envDrain cbEnqueueSecond stDrain _
      (Step.enqUp 3 0 stDrain)

/-! ## C10: enqueues without an installed runtime -/

theorem enqueueElementOnAppropriateElementQueue_not_installed (e : Nat)
    (st : RuntimeState) (h : st.installation = none) :
    enqueueElementOnAppropriateElementQueue e st = st := by
  unfold enqueueElementOnAppropriateElementQueue
  rw [h]

/-- C10: when no installation state is recorded on the global object,
`enqueueCallbackReaction` and `enqueueUpgradeReaction` still append the
reaction to the element's per-element reaction queue, but the element is
placed on no element queue and no drain task is scheduled — the
installation stays absent and the microtask queue is untouched, so the
appended reaction is never invoked. -/
theorem uninstalled_enqueue_appends_but_never_schedules (e : Nat)
    (k : CallbackKind) (args : List (Option String)) (di : Nat)
    (st : RuntimeState) (es : ElementCEState) (d : CEDefinition)
    (hinst : st.installation = none)
    (hes : lookupElem st e = some es)
    (hdef : es.customElementDefinition = some di)
    (hd : getDef st di = some d)
    (hcb : hasCallback d k = true)
    (hskip : (decide (k = CallbackKind.attributeChanged) &&
      attributeNotObserved d args) = false) :
    (enqueueCallbackReaction e k args st).2 = none ∧
    lookupElem (enqueueCallbackReaction e k args st).1 e =
      some { es with reactionQueue :=
        es.reactionQueue ++ [Reaction.callback di k args] } ∧
    (enqueueCallbackReaction e k args st).1.installation = none ∧
    (enqueueCallbackReaction e k args st).1.microtasks = st.microtasks ∧
    lookupElem (enqueueUpgradeReaction e di st) e =
      some { es with
        customElementDefinition := some di,
        reactionQueue := es.reactionQueue ++ [Reaction.upgrade di] } ∧
    (enqueueUpgradeReaction e di st).installation = none ∧
    (enqueueUpgradeReaction e di st).microtasks = st.microtasks := by
  have hred : enqueueCallbackReaction e k args st =
      (enqueueElementOnAppropriateElementQueue e
        (setElem st e { es with reactionQueue :=
          es.reactionQueue ++ [Reaction.callback di k args] }), none) := by
    unfold enqueueCallbackReaction
    rw [hes]
    simp only []
    rw [hdef]
    simp only []
    rw [hd]
    simp only [hcb, hskip]
    simp
  have hinstSet : (setElem st e { es with reactionQueue :=
      es.reactionQueue ++ [Reaction.callback di k args] }).installation =
      none := hinst
  have hid := enqueueElementOnAppropriateElementQueue_not_installed e _ hinstSet
  have hredUp : enqueueUpgradeReaction e di st =
      enqueueElementOnAppropriateElementQueue e
        (setElem st e { es with
          customElementDefinition := some di,
          reactionQueue := es.reactionQueue ++ [Reaction.upgrade di] }) := by
    unfold enqueueUpgradeReaction
    rw [hes]
    simp only [Option.getD_some]
  have hinstSetUp : (setElem st e { es with
      customElementDefinition := some di,
      reactionQueue := es.reactionQueue ++ [Reaction.upgrade di] }).installation
      = none := hinst
  have hidUp := enqueueElementOnAppropriateElementQueue_not_installed e _
    hinstSetUp
  rw [hred, hredUp, hid, hidUp]
  refine ⟨Eq.refl _, ?_, hinstSet, Eq.refl _, ?_, hinstSetUp, Eq.refl _⟩
  · rw [lookupElem_setElem]
    simp
  · rw [lookupElem_setElem]
    simp

/-- Witness for C10 on a concrete uninstalled state. -/
theorem uninstalled_enqueue_appends_but_never_schedules_witness :
    (enqueueCallbackReaction 0 CallbackKind.connected [] stNoInstall).2 =
      none ∧
    lookupElem (enqueueCallbackReaction 0 CallbackKind.connected []
      stNoInstall).1 0 = some { esNoInstall with reactionQueue :=
        [Reaction.callback 0 CallbackKind.connected []] } ∧
    (enqueueCallbackReaction 0 CallbackKind.connected []
      stNoInstall).1.installation = none ∧
    (enqueueCallbackReaction 0 CallbackKind.connected []
      stNoInstall).1.microtasks = stNoInstall.microtasks ∧
    lookupElem (enqueueUpgradeReaction 0 0 stNoInstall) 0 =
      some { esNoInstall with
        customElementDefinition := some 0,
        reactionQueue := [Reaction.upgrade 0] } ∧
    (enqueueUpgradeReaction 0 0 stNoInstall).installation = none ∧
    (enqueueUpgradeReaction 0 0 stNoInstall).microtasks =
      stNoInstall.microtasks := by
  have h := uninstalled_enqueue_appends_but_never_schedules 0
    CallbackKind.connected [] 0 stNoInstall esNoInstall defnDemo
    (by decide) (by decide) (by decide) (by decide) (by decide) (by decide)
  simpa using h

/-! ## C3, C5, C6: closed demonstrations -/

/-- C3 (code bug): `executeCEReactions` is not exception-safe.  On a
freshly installed runtime, a work body that throws leaves the queue
pushed at entry on the reaction stack — the stack holds one (empty)
stale queue after the call instead of being restored to depth zero —
and the error propagates to the caller. -/
theorem executeCEReactions_throwing_work_leaks_queue :
    (executeCEReactions envTrivial cbTrivial 10
        (fun s => (s, some (CEError.userError 0))) stFresh).map
      (fun p => (p.2,
        (p.1.installation.map fun inst =>
          inst.customElementsReactionStack).getD [])) =
      some (some (CEError.userError 0), [[]]) := by decide

/-- C5 (code bug): the validator inspects UTF-16 code units with
`charCodeAt`, so a name containing a supplementary-plane character in
0x10000–0xEFFFF — which the claimed code-point grammar, and the
`PCENChar` production the source cites, accept — is rejected: its
surrogate halves (0xD800–0xDFFF) match no allowed range. -/
theorem validator_rejects_supplementary_plane :
    isValidCustomElementName nameSupplementary = false ∧
    specValidCustomElementName nameSupplementary = true := by decide

/-- C6 (code bug): `define` never checks for an already-registered name
(the source's `// TODO: check for already defined name`): two sequential
`define` calls with the same name both succeed, leaving two definitions
with that name in the table instead of the second call failing. -/
theorem define_appends_duplicate_names :
    ((defineOp envTrivial cbTrivial 10 "x-a" 0 none stFresh).bind fun p1 =>
      (defineOp envTrivial cbTrivial 10 "x-a" 1 none p1.1).map fun p2 =>
        (p1.2, p2.2, p2.1.definitions.map fun d => d.name)) =
      some (none, none, ["x-a", "x-a"]) := by decide

/-! ## C7: the error paths of `define` -/

/-- An error raised by the work body of `executeCEReactions` propagates
unchanged to the caller (whether or not an installation exists). -/
theorem executeCEReactions_error (env : Env) (cb : CbOracle) (fuel : Nat)
    (work : RuntimeState → RuntimeState × Option CEError) (st : RuntimeState)
    (err : CEError)
    (herr : ∀ s : RuntimeState,
      s.elementDefinitionIsRunning = st.elementDefinitionIsRunning →
      (work s).2 = some err) :
    (executeCEReactions env cb fuel work st).map Prod.snd =
      some (some err) := by
  unfold executeCEReactions
  cases hinst : st.installation with
  | none =>
      have h := herr st (Eq.refl _)
      cases hw : work st with
      | mk s2 r2 =>
          rw [hw] at h
          simp only [] at h
          simp [h]
  | some inst =>
      simp only []
      have h := herr { st with installation := some { inst with
          customElementsReactionStack :=
            [] :: inst.customElementsReactionStack } } (Eq.refl _)
      cases hw : work { st with installation := some { inst with
          customElementsReactionStack :=
            [] :: inst.customElementsReactionStack } } with
      | mk s2 r2 =>
          rw [hw] at h
          simp only [] at h
          rw [h]
          simp [executeScopeBody]

/-- C7 as amended: `define` fails with `TypeError` when the constructor
is not its own prototype's constructor; with `SyntaxError` — not
`TypeError` — when the name fails the validator; and, when no `extends`
option is supplied, with `NotSupportedError` when the
definition-running flag is already set. -/
theorem define_error_paths (env : Env) (cb : CbOracle) (fuel : Nat)
    (name : String) (ctorId : Nat) (opts : Option String) (st : RuntimeState) :
    ((env.ctors ctorId).protoCtorIsSelf = false →
      (defineOp env cb fuel name ctorId opts st).map Prod.snd =
        some (some CEError.typeError)) ∧
    ((env.ctors ctorId).protoCtorIsSelf = true →
      isValidCustomElementName name = false →
      (defineOp env cb fuel name ctorId opts st).map Prod.snd =
        some (some CEError.syntaxError)) ∧
    ((env.ctors ctorId).protoCtorIsSelf = true →
      isValidCustomElementName name = true → opts = none →
      st.elementDefinitionIsRunning = true →
      (defineOp env cb fuel name ctorId opts st).map Prod.snd =
        some (some CEError.notSupportedError)) := by
  refine ⟨?_, ?_, ?_⟩
  · intro hc
    refine executeCEReactions_error env cb fuel _ st CEError.typeError ?_
    intro s _
    unfold defineInner
    rw [hc]
    simp
  · intro hc hn
    refine executeCEReactions_error env cb fuel _ st CEError.syntaxError ?_
    intro s _
    unfold defineInner
    rw [hc, hn]
    simp
  · intro hc hn hopts hflag
    subst hopts
    refine executeCEReactions_error env cb fuel _ st
      CEError.notSupportedError ?_
    intro s hs
    unfold defineInner
    rw [hc, hn]
    simp only [Bool.not_true, Bool.false_eq_true, if_false]
    unfold defineRest
    rw [hs, hflag]
    simp

/-- Witness for the amended C7 at concrete inputs. -/
theorem define_error_paths_witness :
    (defineOp envC7 cbTrivial 5 "x-a" 0 none stFresh).map Prod.snd =
      some (some CEError.typeError) ∧
    (defineOp envC7 cbTrivial 5 "div" 1 none stFresh).map Prod.snd =
      some (some CEError.syntaxError) ∧
    (defineOp envC7 cbTrivial 5 "x-a" 1 none stRunning).map Prod.snd =
      some (some CEError.notSupportedError) := by
  refine ⟨?_, ?_, ?_⟩
  · exact (define_error_paths envC7 cbTrivial 5 "x-a" 0 none stFresh).1
      (by decide)
  · exact (define_error_paths envC7 cbTrivial 5 "div" 1 none stFresh).2.1
      (by decide) (by decide)
  · exact (define_error_paths envC7 cbTrivial 5 "x-a" 1 none stRunning).2.2
      (by decide) (by decide) (Eq.refl _) (by decide)

/-- Counterexample to C7 as stated: `define` with a valid constructor
and the invalid name "div" raises `SyntaxError`, which is not the
`TypeError` the claim asserts. -/
theorem define_invalid_name_raises_syntaxError :
    (defineOp envC7 cbTrivial 5 "div" 1 none stFresh).map Prod.snd =
      some (some CEError.syntaxError) ∧
    CEError.syntaxError ≠ CEError.typeError := by
  constructor
  · decide
  · decide

/-! ## C1: the failure path of `upgradeElement` -/

theorem getDefList_modifyDefList (l : List CEDefinition) (n : Nat)
    (f : CEDefinition → CEDefinition) :
    getDefList (modifyDefList l n f) n = (getDefList l n).map f := by
  induction l generalizing n with
  | nil => cases n <;> simp [getDefList, modifyDefList]
  | cons d rest ih =>
      cases n with
      | zero => simp [getDefList, modifyDefList]
      | succ m => simp [getDefList, modifyDefList, ih]

/-- C1: when the construction hook throws during an upgrade (or returns
a different element, which raises `InvalidStateError` inside the same
`try`), `upgradeElement` re-raises the caught error, leaves the element
in state `failed` with a null definition and an empty reaction queue —
including reactions enqueued earlier in the same call — restores the
definition's construction stack (the push is popped regardless of
outcome), and a second upgrade attempt on that element is a no-op. -/
theorem upgrade_construction_failure (env : Env) (e di : Nat)
    (st st1 : RuntimeState) (es1 : ElementCEState) (d1 : CEDefinition)
    (err : CEError)
    (hpre : upgradeElementPre env e di st = UpgradePre.proceed st1)
    (hes : lookupElem st1 e = some es1)
    (hd : getDef st1 di = some d1)
    (hhook : upgradeCaught
      (env.hook (d1.constructionStack ++ [StackEntry.elem e])) e = some err) :
    (upgradeElement env e di st).2 = some err ∧
    lookupElem (upgradeElement env e di st).1 e =
      some { es1 with
        customElementState := some CEState.failed,
        customElementDefinition := none,
        reactionQueue := [] } ∧
    (getDef (upgradeElement env e di st).1 di).map
      (fun d => d.constructionStack) = some d1.constructionStack ∧
    shouldNotUpgrade (lookupElem (upgradeElement env e di st).1 e) = true ∧
    upgradeElement env e di (upgradeElement env e di st).1 =
      ((upgradeElement env e di st).1, none) := by
  have hmain : upgradeElement env e di st = upgradeConstructPhase env e di st1 := by
    unfold upgradeElement
    rw [hpre]
  have hgd : getDef (pushConstructionStack di e st1) di =
      some { d1 with constructionStack :=
        d1.constructionStack ++ [StackEntry.elem e] } := by
    unfold pushConstructionStack getDef modifyDef
    simp only []
    rw [getDefList_modifyDefList]
    rw [show getDefList st1.definitions di = some d1 from hd]
    rfl
  have hstack : currentConstructionStack (pushConstructionStack di e st1) di =
      d1.constructionStack ++ [StackEntry.elem e] := by
    unfold currentConstructionStack
    rw [hgd]
  have hlookupPush : lookupElem (pushConstructionStack di e st1) e =
      some es1 := hes
  have esF : ElementCEState := es1
  have hft : upgradeFailureTransition e (pushConstructionStack di e st1) =
      setElem (pushConstructionStack di e st1) e { es1 with
        customElementState := some CEState.failed,
        customElementDefinition := none,
        reactionQueue := [] } := by
    unfold upgradeFailureTransition
    rw [hlookupPush]
  have hcp : upgradeConstructPhase env e di st1 =
      (popConstructionStack di (upgradeFailureTransition e
        (pushConstructionStack di e st1)), some err) := by
    unfold upgradeConstructPhase upgradeRunHook
    rw [hstack, hhook]
  have hlookup2 : lookupElem (upgradeElement env e di st).1 e =
      some { es1 with
        customElementState := some CEState.failed,
        customElementDefinition := none,
        reactionQueue := [] } := by
    rw [hmain, hcp]
    simp only []
    rw [show ∀ s : RuntimeState, lookupElem (popConstructionStack di s) e =
      lookupElem s e from fun s => Eq.refl _]
    rw [hft, lookupElem_setElem]
    simp
  refine ⟨?_, hlookup2, ?_, ?_, ?_⟩
  · rw [hmain, hcp]
  · rw [hmain, hcp]
    simp only []
    unfold popConstructionStack getDef modifyDef
    simp only []
    rw [getDefList_modifyDefList]
    rw [hft]
    rw [show getDefList (setElem (pushConstructionStack di e st1) e
      { es1 with
        customElementState := some CEState.failed,
        customElementDefinition := none,
        reactionQueue := [] }).definitions di =
      getDef (pushConstructionStack di e st1) di from Eq.refl _]
    rw [hgd]
    simp
  · rw [hlookup2]
    simp [shouldNotUpgrade]
  · have hearly : upgradeElementPre env e di (upgradeElement env e di st).1 =
        UpgradePre.earlyReturn (upgradeElement env e di st).1 := by
      unfold upgradeElementPre
      rw [hlookup2]
      simp [shouldNotUpgrade]
    generalize hst2 : (upgradeElement env e di st).1 = st2 at hearly ⊢
    unfold upgradeElement
    rw [hearly]

/-- Witness for C1 on a concrete throwing upgrade. -/
theorem upgrade_construction_failure_witness :
    (upgradeElement envC1 0 0 stC1).2 = some (CEError.userError 7) ∧
    lookupElem (upgradeElement envC1 0 0 stC1).1 0 =
      some { esC1 with
        customElementState := some CEState.failed,
        customElementDefinition := none,
        reactionQueue := [] } ∧
    (getDef (upgradeElement envC1 0 0 stC1).1 0).map
      (fun d => d.constructionStack) = some defnDemo.constructionStack ∧
    shouldNotUpgrade (lookupElem (upgradeElement envC1 0 0 stC1).1 0) = true ∧
    upgradeElement envC1 0 0 (upgradeElement envC1 0 0 stC1).1 =
      ((upgradeElement envC1 0 0 stC1).1, none) :=
  upgrade_construction_failure envC1 0 0 stC1 stC1 esC1 defnDemo
    (CEError.userError 7) (by decide) (by decide) (by decide) (by decide)

/-! ## Field bookkeeping for the enqueue functions

The enqueue functions touch only the element store and the queues: the
definition table and the ghost invocation log pass through unchanged,
and element reaction queues are only ever extended at the tail. -/

theorem enqueueAppropriate_fields (e : Nat) (st : RuntimeState) :
    (enqueueElementOnAppropriateElementQueue e st).elemState = st.elemState ∧
    (enqueueElementOnAppropriateElementQueue e st).definitions =
      st.definitions ∧
    (enqueueElementOnAppropriateElementQueue e st).invocationLog =
      st.invocationLog := by
  unfold enqueueElementOnAppropriateElementQueue
  cases hinst : st.installation with
  | none => exact ⟨Eq.refl _, Eq.refl _, Eq.refl _⟩
  | some inst =>
      cases hstack : inst.customElementsReactionStack with
      | nil =>
          cases hflag : inst.processingBackupElementQueue with
          | true => simp [hstack, hflag]
          | false => simp [hstack, hflag]
      | cons top rest => simp [hstack]

theorem lookupElem_congr {st st' : RuntimeState}
    (h : st'.elemState = st.elemState) (e : Nat) :
    lookupElem st' e = lookupElem st e := by
  rw [lookupElem, lookupElem, h]

theorem enqueueCallbackReaction_fields (e : Nat) (k : CallbackKind)
    (args : List (Option String)) (st : RuntimeState) :
    (enqueueCallbackReaction e k args st).1.invocationLog =
      st.invocationLog ∧
    (enqueueCallbackReaction e k args st).1.definitions = st.definitions := by
  unfold enqueueCallbackReaction
  split
  · exact ⟨Eq.refl _, Eq.refl _⟩
  · split
    · exact ⟨Eq.refl _, Eq.refl _⟩
    · split
      · exact ⟨Eq.refl _, Eq.refl _⟩
      · split
        · exact ⟨Eq.refl _, Eq.refl _⟩
        · split
          · exact ⟨Eq.refl _, Eq.refl _⟩
          · constructor
            · rw [(enqueueAppropriate_fields e _).2.2]
              exact Eq.refl _
            · rw [(enqueueAppropriate_fields e _).2.1]
              exact Eq.refl _

theorem enqueueUpgradeReaction_fields (e di : Nat) (st : RuntimeState) :
    (enqueueUpgradeReaction e di st).invocationLog = st.invocationLog ∧
    (enqueueUpgradeReaction e di st).definitions = st.definitions := by
  unfold enqueueUpgradeReaction
  constructor
  · rw [(enqueueAppropriate_fields e _).2.2]
    exact Eq.refl _
  · rw [(enqueueAppropriate_fields e _).2.1]
    exact Eq.refl _

theorem interpretCmds_log (cmds : List UserCmd) (st : RuntimeState) :
    (interpretCmds cmds st).1.invocationLog = st.invocationLog := by
  induction cmds generalizing st with
  | nil => exact Eq.refl _
  | cons c rest ih =>
      cases c with
      | throwErr err => exact Eq.refl _
      | enqCb e k args =>
          simp only [interpretCmds]
          split
          · rename_i st1 err heq
            have := (enqueueCallbackReaction_fields e k args st).1
            rw [heq] at this
            exact this
          · rename_i st1 heq
            have h1 := (enqueueCallbackReaction_fields e k args st).1
            rw [heq] at h1
            rw [ih st1]
            exact h1
      | enqUp e di =>
          simp only [interpretCmds]
          rw [ih _]
          exact (enqueueUpgradeReaction_fields e di st).1

theorem enqueueCallbackReaction_queue_extends (e : Nat) (k : CallbackKind)
    (args : List (Option String)) (st : RuntimeState) (e' : Nat)
    (es' : ElementCEState) (h : lookupElem st e' = some es') :
    ∃ es'' A, lookupElem (enqueueCallbackReaction e k args st).1 e' =
      some es'' ∧ es''.reactionQueue = es'.reactionQueue ++ A := by
  unfold enqueueCallbackReaction
  split
  · exact ⟨es', [], h, by simp⟩
  · rename_i es heq
    split
    · exact ⟨es', [], h, by simp⟩
    · rename_i di hdi
      split
      · exact ⟨es', [], h, by simp⟩
      · rename_i d hd
        split
        · exact ⟨es', [], h, by simp⟩
        · split
          · exact ⟨es', [], h, by simp⟩
          · rw [show lookupElem (enqueueElementOnAppropriateElementQueue e
                (setElem st e { es with reactionQueue :=
                  es.reactionQueue ++ [.callback di k args] }), none).1 e' =
                lookupElem (setElem st e { es with reactionQueue :=
                  es.reactionQueue ++ [.callback di k args] }) e' from
              lookupElem_congr (enqueueAppropriate_fields e _).1 e']
            rw [lookupElem_setElem]
            by_cases he : e' = e
            · subst he
              rw [h] at heq
              cases heq
              exact ⟨{ es' with reactionQueue :=
                  es'.reactionQueue ++ [Reaction.callback di k args] },
                [Reaction.callback di k args], by simp, by simp⟩
            · exact ⟨es', [], by simp [he, h], by simp⟩

theorem enqueueUpgradeReaction_queue_extends (e di : Nat) (st : RuntimeState)
    (e' : Nat) (es' : ElementCEState) (h : lookupElem st e' = some es') :
    ∃ es'' A, lookupElem (enqueueUpgradeReaction e di st) e' = some es'' ∧
      es''.reactionQueue = es'.reactionQueue ++ A := by
  unfold enqueueUpgradeReaction
  rw [lookupElem_congr (enqueueAppropriate_fields e _).1 e']
  rw [lookupElem_setElem]
  by_cases he : e' = e
  · subst he
    rw [h]
    exact ⟨{ es' with
        customElementDefinition := some di,
        reactionQueue := es'.reactionQueue ++ [Reaction.upgrade di] },
      [Reaction.upgrade di], by simp, by simp⟩
  · exact ⟨es', [], by simp [he, h], by simp⟩

theorem interpretCmds_queue_extends (cmds : List UserCmd) (st : RuntimeState)
    (e' : Nat) (es' : ElementCEState) (h : lookupElem st e' = some es') :
    ∃ es'' A, lookupElem (interpretCmds cmds st).1 e' = some es'' ∧
      es''.reactionQueue = es'.reactionQueue ++ A := by
  induction cmds generalizing st es' with
  | nil => exact ⟨es', [], h, by simp⟩
  | cons c rest ih =>
      cases c with
      | throwErr err => exact ⟨es', [], h, by simp⟩
      | enqCb e k args =>
          simp only [interpretCmds]
          obtain ⟨es1, A1, h1, hq1⟩ :=
            enqueueCallbackReaction_queue_extends e k args st e' es' h
          split
          · rename_i st1 err heq
            rw [heq] at h1
            exact ⟨es1, A1, h1, hq1⟩
          · rename_i st1 heq
            rw [heq] at h1
            obtain ⟨es2, A2, h2, hq2⟩ := ih st1 es1 h1
            exact ⟨es2, A1 ++ A2, h2, by rw [hq2, hq1, List.append_assoc]⟩
      | enqUp e di =>
          simp only [interpretCmds]
          obtain ⟨es1, A1, h1, hq1⟩ :=
            enqueueUpgradeReaction_queue_extends e di st e' es' h
          obtain ⟨es2, A2, h2, hq2⟩ := ih _ es1 h1
          exact ⟨es2, A1 ++ A2, h2, by rw [hq2, hq1, List.append_assoc]⟩

/-! ## C8: exceptions are caught per-reaction and the batch completes -/

theorem getD_mem_of_lt {l : List Nat} {i : Nat} (h : i < l.length) :
    l.getD i 0 ∈ l := by
  induction l generalizing i with
  | nil => simp at h
  | cons a rest ih =>
      cases i with
      | zero => simp
      | succ m =>
          simp only [List.getD_cons_succ]
          exact List.mem_cons_of_mem a (ih (by simpa using h))

/-- The inner invocation loop never lets an exception escape when the
element has a private state: every error raised by a dispatched reaction
is caught inside the loop. -/
theorem invokeElementReactions_no_escape (env : Env) (cb : CbOracle) :
    ∀ fuel e st st' r, (lookupElem st e).isSome = true →
    invokeElementReactions env cb fuel e st = some (st', r) → r = none := by
  intro fuel
  induction fuel with
  | zero =>
      intro e st st' r _ h
      simp [invokeElementReactions] at h
  | succ n ih =>
      intro e st st' r hex h
      rw [invokeElementReactions] at h
      cases hl : lookupElem st e with
      | none =>
          rw [hl] at hex
          simp at hex
      | some es =>
          rw [hl] at h
          simp only [] at h
          cases hq : es.reactionQueue with
          | nil =>
              rw [hq] at h
              simp only [Option.some.injEq, Prod.mk.injEq] at h
              exact h.2.symm
          | cons rr rest =>
              rw [hq] at h
              simp only [] at h
              have hex2 : (lookupElem (invokeOneReaction env cb e rr
                  (setElem st e { es with reactionQueue := rest })) e).isSome =
                  true := by
                apply (preserves_invokeOneReaction env cb e rr _).elems
                rw [lookupElem_setElem]
                simp
              exact ih e _ st' r hex2 h

/-- The fixed-queue invocation loop, started at an index within bounds
over elements that all have private state, completes the whole batch:
no error escapes and every element of the queue is visited. -/
theorem invokeReactionsLoop_fixed_complete (env : Env) (cb : CbOracle) :
    ∀ fuel q i st st' r i',
    (∀ x ∈ q, (lookupElem st x).isSome = true) → i ≤ q.length →
    invokeReactionsLoop env cb fuel (QueueSrc.fixedQ q) i st =
      some (st', r, i') →
    r = none ∧ i' = q.length := by
  intro fuel
  induction fuel with
  | zero =>
      intro q i st st' r i' _ _ h
      simp [invokeReactionsLoop] at h
  | succ n ih =>
      intro q i st st' r i' hex hi h
      rw [invokeReactionsLoop] at h
      split at h
      · rename_i hlt
        split at h
        · exact absurd h (by simp)
        · rename_i x st1 r1 hres
          have hmem : q.getD i 0 ∈ q := getD_mem_of_lt hlt
          have hne := invokeElementReactions_no_escape env cb n _ st st1 _
            (hex _ hmem) hres
          simp at hne
        · rename_i x st1 hres
          have hex2 : ∀ x ∈ q, (lookupElem st1 x).isSome = true := fun x hx =>
            (preserves_invokeElementReactions env cb n _ st st1 _ hres).elems
              x (hex x hx)
          have hlt' : i < q.length := hlt
          exact ih q (i + 1) st1 st' r i' hex2 (by omega) h
      · rename_i hnlt
        simp only [Option.some.injEq, Prod.mk.injEq] at h
        have hnlt' : ¬ i < q.length := hnlt
        refine ⟨h.2.1.symm, ?_⟩
        rw [← h.2.2]
        omega

/-- C8: an exception raised while invoking a queued reaction (upgrade or
callback) is caught per-reaction — the invocation step forwards it to
the error sink and returns normally — and the fixed-queue invocation
loop always continues with the next reaction and the next element: for
every queue of elements that have private state, the loop finishes with
no escaping error, visits every element, and only ever appends to the
error sink. -/
theorem reaction_errors_caught_and_batch_completes :
    (∀ (env : Env) (cb : CbOracle) (e : Nat) (r : Reaction)
        (st st' : RuntimeState) (err : CEError),
        dispatchReaction env cb e r (pushLog st e r) = (st', some err) →
        invokeOneReaction env cb e r st = reportError err st') ∧
    (∀ (env : Env) (cb : CbOracle) (fuel : Nat) (q : List Nat)
        (st st' : RuntimeState) (r : Option CEError) (i' : Nat),
        (∀ x ∈ q, (lookupElem st x).isSome = true) →
        invokeReactionsLoop env cb fuel (QueueSrc.fixedQ q) 0 st =
          some (st', r, i') →
        r = none ∧ i' = q.length ∧
          ∃ t, st'.reportedErrors = st.reportedErrors ++ t) := by
  constructor
  · intro env cb e r st st' err h
    unfold invokeOneReaction
    rw [h]
  · intro env cb fuel q st st' r i' hex h
    obtain ⟨hr, hi⟩ := invokeReactionsLoop_fixed_complete env cb fuel q 0 st
      st' r i' hex (by omega) h
    exact ⟨hr, hi,
      (preserves_invokeReactionsLoop env cb fuel _ 0 st st' r i' h).reports⟩

/-- `stDrain` with the drain-demonstration element used as a fixed
queue: element 0 holds one connected reaction whose callback throws. -/
theorem reaction_errors_caught_and_batch_completes_witness :
    invokeOneReaction envDrain cbThrow 0
      (Reaction.callback 0 CallbackKind.connected []) stDrain =
      reportError (CEError.userError 3)
        (pushLog stDrain 0 (Reaction.callback 0 CallbackKind.connected [])) ∧
    ((invokeReactionsLoop envDrain cbThrow 10 (QueueSrc.fixedQ [0]) 0
        stDrain).map fun p => (p.2.1, p.2.2)) = some (none, 1) := by
  constructor
  · exact reaction_errors_caught_and_batch_completes.1 envDrain cbThrow 0
      (Reaction.callback 0 CallbackKind.connected []) stDrain _
      (CEError.userError 3) (by decide)
  · cases hrun : invokeReactionsLoop envDrain cbThrow 10 (QueueSrc.fixedQ [0])
        0 stDrain with
    | none => exact absurd hrun (by decide)
    | some p =>
        obtain ⟨st', r, i'⟩ := p
        obtain ⟨hr, hi, _⟩ :=
          reaction_errors_caught_and_batch_completes.2 envDrain cbThrow 10
            [0] stDrain st' r i' (by decide) hrun
        subst hr
        subst hi
        simp

/-- The invocation loop logs reactions in queue order: starting from a
queue whose front segment `P` consists of callback reactions, a
completed run of the per-element loop invokes exactly the reactions of
`P` first, in order — whatever the callbacks enqueue afterwards (the
commands only append to reaction queues). -/
theorem invokeElementReactions_log_order (env : Env) (cb : CbOracle) (e : Nat) :
    ∀ (P : List Reaction) (fuel : Nat) (st : RuntimeState)
      (es : ElementCEState) (R : List Reaction) (st2 : RuntimeState)
      (r2 : Option CEError),
    lookupElem st e = some es →
    es.reactionQueue = P ++ R →
    (∀ x ∈ P, isCallbackReaction x = true) →
    invokeElementReactions env cb fuel e st = some (st2, r2) →
    ∃ tail, st2.invocationLog =
      st.invocationLog ++ P.map (fun x => (e, x)) ++ tail := by
  intro P
  induction P with
  | nil =>
      intro fuel st es R st2 r2 hes hq hP h
      obtain ⟨t, ht⟩ :=
        (preserves_invokeElementReactions env cb fuel e st st2 r2 h).log
      exact ⟨t, by simpa using ht⟩
  | cons p P' ih =>
      intro fuel st es R st2 r2 hes hq hP h
      cases fuel with
      | zero => simp [invokeElementReactions] at h
      | succ n =>
          rw [invokeElementReactions] at h
          rw [hes] at h
          simp only [] at h
          rw [hq] at h
          simp only [List.cons_append] at h
          obtain ⟨di, k, args, hp⟩ :
              ∃ di k args, p = Reaction.callback di k args := by
            have hc := hP p (by simp)
            cases p with
            | upgrade d => simp [isCallbackReaction] at hc
            | callback d k a => exact ⟨d, k, a, Eq.refl _⟩
          subst hp
          cases hI : interpretCmds
              (cb di e k args (pushLog
                (setElem st e { es with reactionQueue := P' ++ R }) e
                (Reaction.callback di k args)))
              (pushLog (setElem st e { es with reactionQueue := P' ++ R }) e
                (Reaction.callback di k args)) with
          | mk stB rB =>
              have hone : invokeOneReaction env cb e
                  (Reaction.callback di k args)
                  (setElem st e { es with reactionQueue := P' ++ R }) =
                  (match rB with
                   | some err => reportError err stB
                   | none => stB) := by
                unfold invokeOneReaction dispatchReaction
                simp only [hI]
                cases rB <;> rfl
              have hlogB : stB.invocationLog =
                  st.invocationLog ++ [(e, Reaction.callback di k args)] := by
                have hl := interpretCmds_log
                  (cb di e k args (pushLog
                    (setElem st e { es with reactionQueue := P' ++ R }) e
                    (Reaction.callback di k args)))
                  (pushLog (setElem st e { es with reactionQueue := P' ++ R })
                    e (Reaction.callback di k args))
                rw [hI] at hl
                simp only [] at hl
                rw [hl]
                simp [pushLog, setElem]
              have hlookA : lookupElem (pushLog
                  (setElem st e { es with reactionQueue := P' ++ R }) e
                  (Reaction.callback di k args)) e =
                  some { es with reactionQueue := P' ++ R } := by
                show lookupElem
                  (setElem st e { es with reactionQueue := P' ++ R }) e = _
                rw [lookupElem_setElem]
                simp
              obtain ⟨esB, A, hB1, hB2⟩ :=
                interpretCmds_queue_extends _ _ e _ hlookA
              rw [hI] at hB1
              simp only [] at hB1 hB2
              cases rB with
              | none =>
                  rw [hone] at h
                  simp only [] at h
                  obtain ⟨tail, htail⟩ := ih n stB esB (R ++ A) st2 r2 hB1
                    (by rw [hB2, List.append_assoc])
                    (fun x hx => hP x (by simp [hx])) h
                  refine ⟨tail, ?_⟩
                  rw [htail, hlogB]
                  simp [List.append_assoc]
              | some errB =>
                  rw [hone] at h
                  simp only [] at h
                  have hB1' : lookupElem (reportError errB stB) e = some esB :=
                    hB1
                  obtain ⟨tail, htail⟩ := ih n (reportError errB stB) esB
                    (R ++ A) st2 r2 hB1' (by rw [hB2, List.append_assoc])
                    (fun x hx => hP x (by simp [hx])) h
                  refine ⟨tail, ?_⟩
                  rw [htail]
                  rw [show (reportError errB stB).invocationLog =
                    stB.invocationLog from Eq.refl _]
                  rw [hlogB]
                  simp [List.append_assoc]

/-- A successful (non-skipping) `enqueueCallbackReaction` appends
exactly one callback reaction to the element's queue, reports no error,
and leaves the definition table unchanged. -/
theorem enqueueCallbackReaction_push_spec (e : Nat) (k : CallbackKind)
    (args : List (Option String)) (st : RuntimeState) (es : ElementCEState)
    (di : Nat) (d : CEDefinition)
    (hes : lookupElem st e = some es)
    (hdef : es.customElementDefinition = some di)
    (hd : getDef st di = some d)
    (hcb : hasCallback d k = true)
    (hskip : (decide (k = CallbackKind.attributeChanged) &&
      attributeNotObserved d args) = false) :
    (enqueueCallbackReaction e k args st).2 = none ∧
    (enqueueCallbackReaction e k args st).1.definitions = st.definitions ∧
    lookupElem (enqueueCallbackReaction e k args st).1 e =
      some { es with reactionQueue :=
        es.reactionQueue ++ [Reaction.callback di k args] } := by
  have hred : enqueueCallbackReaction e k args st =
      (enqueueElementOnAppropriateElementQueue e
        (setElem st e { es with reactionQueue :=
          es.reactionQueue ++ [Reaction.callback di k args] }), none) := by
    unfold enqueueCallbackReaction
    rw [hes]
    simp only []
    rw [hdef]
    simp only []
    rw [hd]
    simp only [hcb, hskip]
    simp
  rw [hred]
  refine ⟨Eq.refl _, ?_, ?_⟩
  · rw [(enqueueAppropriate_fields e _).2.1]
    exact Eq.refl _
  · rw [lookupElem_congr (enqueueAppropriate_fields e _).1 e]
    rw [lookupElem_setElem]
    simp

/-- The attribute loop of `upgradeElement` over attributes that are all
observed by a definition with an `attributeChangedCallback` appends one
attribute-changed reaction per attribute, in order. -/
theorem enqueueAttributeReactions_spec (e di : Nat) (d : CEDefinition)
    (hac : d.hasAttributeChanged = true) :
    ∀ (attrs : List (String × String × Option String)) (st : RuntimeState)
      (es : ElementCEState),
    lookupElem st e = some es →
    es.customElementDefinition = some di →
    getDef st di = some d →
    (∀ a ∈ attrs, d.observedAttributes.contains a.1 = true) →
    (enqueueAttributeReactions e attrs st).2 = none ∧
    (enqueueAttributeReactions e attrs st).1.definitions = st.definitions ∧
    lookupElem (enqueueAttributeReactions e attrs st).1 e =
      some { es with reactionQueue :=
        es.reactionQueue ++ attrs.map (attrReaction di) } := by
  intro attrs
  induction attrs with
  | nil =>
      intro st es hes hdef hd hobs
      refine ⟨Eq.refl _, Eq.refl _, ?_⟩
      show lookupElem st e = _
      rw [hes]
      simp
  | cons a rest ih =>
      intro st es hes hdef hd hobs
      have hskip : (decide (CallbackKind.attributeChanged =
          CallbackKind.attributeChanged) &&
          attributeNotObserved d [some a.1, none, some a.2.1, a.2.2]) =
          false := by
        have hmem : a.1 ∈ d.observedAttributes :=
          List.mem_of_elem_eq_true (hobs a (by simp))
        have hno : attributeNotObserved d
            [some a.1, none, some a.2.1, a.2.2] = false := by
          unfold attributeNotObserved
          simp [hmem]
        simp [hno]
      have hone := enqueueCallbackReaction_push_spec e
        CallbackKind.attributeChanged [some a.1, none, some a.2.1, a.2.2]
        st es di d hes hdef hd
        (by simpa [hasCallback] using hac) hskip
      unfold enqueueAttributeReactions
      cases hres : enqueueCallbackReaction e CallbackKind.attributeChanged
          [some a.1, none, some a.2.1, a.2.2] st with
      | mk st1 r1 =>
          rw [hres] at hone
          simp only [] at hone
          obtain ⟨hr1, hdefs1, hlook1⟩ := hone
          subst hr1
          simp only []
          have hd1 : getDef st1 di = some d := by
            rw [getDef, hdefs1]
            exact hd
          have hrest := ih st1 { es with reactionQueue :=
              es.reactionQueue ++ [Reaction.callback di
                CallbackKind.attributeChanged
                [some a.1, none, some a.2.1, a.2.2]] }
            hlook1 (by simpa using hdef) hd1 (fun x hx => hobs x (by simp [hx]))
          obtain ⟨hr2, hdefs2, hlook2⟩ := hrest
          refine ⟨hr2, by rw [hdefs2, hdefs1], ?_⟩
          rw [hlook2]
          simp [attrReaction, List.append_assoc]

/-- C2 (amended): upgrading an element whose definition has an
`attributeChangedCallback` observing every present attribute and a
`connectedCallback`, while the element is attached to a live tree and
its reaction queue is empty, enqueues exactly one attribute-changed
reaction per attribute (old value absent, new value the current value)
followed by exactly one connected reaction; they are in the queue before
the construction hook runs (`upgradeElement` applies the construct phase
to the post-enqueue state), and a completed invocation pass over the
element invokes them first, in that order, before anything enqueued
later. -/
theorem upgrade_enqueues_attrs_then_connected (env : Env) (e di : Nat)
    (st : RuntimeState) (es : ElementCEState) (d : CEDefinition)
    (hes : lookupElem st e = some es)
    (hnot : shouldNotUpgrade (some es) = false)
    (hq : es.reactionQueue = [])
    (hdef : es.customElementDefinition = some di)
    (hd : getDef st di = some d)
    (hac : d.hasAttributeChanged = true)
    (hcc : d.hasConnected = true)
    (hobs : ∀ a ∈ (env.elems e).attributes,
      d.observedAttributes.contains a.1 = true)
    (hconn : (env.elems e).isConnected = true) :
    ∃ st1, upgradeElementPre env e di st = UpgradePre.proceed st1 ∧
      lookupElem st1 e = some { es with
        reactionQueue := (env.elems e).attributes.map (attrReaction di) ++
          [Reaction.callback di CallbackKind.connected []] } ∧
      upgradeElement env e di st = upgradeConstructPhase env e di st1 ∧
      (∀ (cb : CbOracle) (fuel : Nat) (st2 : RuntimeState)
          (r2 : Option CEError),
        invokeElementReactions env cb fuel e st1 = some (st2, r2) →
        ∃ tail, st2.invocationLog = st1.invocationLog ++
          ((env.elems e).attributes.map (fun a => (e, attrReaction di a)) ++
            [(e, Reaction.callback di CallbackKind.connected [])]) ++ tail) := by
  have hattrs := enqueueAttributeReactions_spec e di d hac
    (env.elems e).attributes st es hes hdef hd hobs
  obtain ⟨hrA, hdefsA, hlookA⟩ := hattrs
  have hdA : getDef (enqueueAttributeReactions e (env.elems e).attributes
      st).1 di = some d := by
    rw [getDef, hdefsA]
    exact hd
  have hconnSpec := enqueueCallbackReaction_push_spec e
    CallbackKind.connected [] (enqueueAttributeReactions e
      (env.elems e).attributes st).1
    { es with reactionQueue :=
        es.reactionQueue ++ (env.elems e).attributes.map (attrReaction di) }
    di d hlookA (by simpa using hdef) hdA
    (by simpa [hasCallback] using hcc) (by simp [decide_eq_false])
  obtain ⟨hrC, hdefsC, hlookC⟩ := hconnSpec
  -- the proceed state
  have hphase : upgradeEnqueuePhase env e st = UpgradePre.proceed
      (enqueueCallbackReaction e CallbackKind.connected []
        (enqueueAttributeReactions e (env.elems e).attributes st).1).1 := by
    unfold upgradeEnqueuePhase
    cases hresA : enqueueAttributeReactions e (env.elems e).attributes st with
    | mk stA rA =>
        rw [hresA] at hrA
        simp only [] at hrA
        subst hrA
        simp only [hconn, if_true]
        cases hresC : enqueueCallbackReaction e CallbackKind.connected []
            stA with
        | mk stC rC =>
            rw [hresA] at hrC
            rw [hresC] at hrC
            simp only [] at hrC
            subst hrC
            rfl
  have hpre : upgradeElementPre env e di st = UpgradePre.proceed
      (enqueueCallbackReaction e CallbackKind.connected []
        (enqueueAttributeReactions e (env.elems e).attributes st).1).1 := by
    unfold upgradeElementPre
    rw [hes]
    simp only [hnot]
    simp only [Bool.false_eq_true, if_false]
    exact hphase
  refine ⟨_, hpre, ?_, ?_, ?_⟩
  · rw [hlookC, hq]
    simp
  · unfold upgradeElement
    rw [hpre]
  · intro cb fuel st2 r2 hrun
    have hlook1 : lookupElem (enqueueCallbackReaction e
        CallbackKind.connected [] (enqueueAttributeReactions e
          (env.elems e).attributes st).1).1 e =
        some { es with
          reactionQueue := (env.elems e).attributes.map (attrReaction di) ++
            [Reaction.callback di CallbackKind.connected []] } := by
      rw [hlookC, hq]
      simp
    have htrace := invokeElementReactions_log_order env cb e
      ((env.elems e).attributes.map (attrReaction di) ++
        [Reaction.callback di CallbackKind.connected []])
      fuel _ _ [] st2 r2 hlook1 (by simp) ?_ hrun
    · obtain ⟨tail, htail⟩ := htrace
      refine ⟨tail, ?_⟩
      rw [htail]
      simp [List.map_append, List.map_map, Function.comp]
    · intro x hx
      simp only [List.mem_append, List.mem_map, List.mem_singleton] at hx
      cases hx with
      | inl hx' =>
          obtain ⟨a, _, ha⟩ := hx'
          rw [← ha]
          simp [attrReaction, isCallbackReaction]
      | inr hx' =>
          rw [hx']
          simp [isCallbackReaction]

/-- Witness for the amended C2 at a concrete one-attribute connected
element. -/
theorem upgrade_enqueues_attrs_then_connected_witness :
    ∃ st1, upgradeElementPre envC2 0 0 stC2 = UpgradePre.proceed st1 ∧
      lookupElem st1 0 = some { esC2 with
        reactionQueue := (envC2.elems 0).attributes.map (attrReaction 0) ++
          [Reaction.callback 0 CallbackKind.connected []] } ∧
      upgradeElement envC2 0 0 stC2 = upgradeConstructPhase envC2 0 0 st1 ∧
      (∀ (cb : CbOracle) (fuel : Nat) (st2 : RuntimeState)
          (r2 : Option CEError),
        invokeElementReactions envC2 cb fuel 0 st1 = some (st2, r2) →
        ∃ tail, st2.invocationLog = st1.invocationLog ++
          ((envC2.elems 0).attributes.map (fun a => (0, attrReaction 0 a)) ++
            [(0, Reaction.callback 0 CallbackKind.connected [])]) ++ tail) :=
  upgrade_enqueues_attrs_then_connected envC2 0 0 stC2 esC2 defnC2
    (by decide) (by decide) (by decide) (by decide) (by decide) (by decide)
    (by decide) (by decide) (by decide)

/-- Counterexample to C2 as stated: element 0 has one attribute and is
attached to a live tree, yet upgrading it against a definition without
callbacks reaches the construction hook with an empty reaction queue —
no attribute-changed reaction and no connected reaction is enqueued,
because `enqueueCallbackReaction` drops the reaction when the definition
lacks the callback. -/
theorem upgrade_without_callbacks_enqueues_nothing :
    (envC2.elems 0).attributes.length = 1 ∧
    (envC2.elems 0).isConnected = true ∧
    (match upgradeElementPre envC2 0 0 stC2bad with
      | UpgradePre.proceed st1 =>
          (lookupElem st1 0).map (fun es => es.reactionQueue)
      | UpgradePre.earlyReturn _ => none
      | UpgradePre.threw _ _ => none) = some [] := by
  refine ⟨by decide, by decide, ?_⟩
  decide

end CustomElements

